import Mathlib

/-!
# Verification of the tender-dashboard PDF extraction core

Shallow embedding of the two extractor modules of the repository
(`tender_pdf_extractor.py` and `building_rights_extractor.py`) and proofs
of the specification claims about them.

Modelling conventions:
* Python strings are modelled as `List Char` (wrapped in `String` at the
  public boundary where convenient).
* Python `float` results of the numeric cell parser are modelled as `ℚ`;
  the model of `float(s)` covers the plain decimal forms
  `[sign] digits [. digits]` that occur in these modules (scientific
  notation, `inf`/`nan` and underscore separators never occur in the
  parsed table cells and are out of scope of every claim).
* The comparison `numeric_count < len(cells) * 0.3` is modelled by the
  exact integer comparison `10 * numeric_count < 3 * len(cells)`, which
  agrees with the IEEE-double comparison for every feasible row length.
* The regular expressions of the source are compiled by hand into
  executable character-list scanners with Python `re` leftmost / greedy
  semantics.
* `pdfplumber` is modelled by an abstract PDF value: a list of pages, each
  carrying the result of `extract_text()` (`Option String`, or a raised
  exception) and of `extract_tables()`.  Exceptions are modelled with
  `Except String`; a caught exception carries the result state mutated so
  far, mirroring Python's in-place dict mutation.
-/

namespace TenderDash

/-! ## Character classes (Python `re` classes used by the source) -/

/-- `\d` of the source patterns (ASCII decimal digit). -/
def isDigitCh (c : Char) : Bool := c.isDigit

/-- The class `[\d,./\-]` of the numeric-run pattern in `_reverse_hebrew`. -/
def isSepCh (c : Char) : Bool :=
  c.isDigit || c = ',' || c = '.' || c = '/' || c = '-'

/-- `\s` / `str.strip()` whitespace. -/
def isWsCh (c : Char) : Bool := c.isWhitespace

/-- Python `str.strip()`: drop whitespace from both ends. -/
def pyStrip (l : List Char) : List Char :=
  ((l.dropWhile isWsCh).reverse.dropWhile isWsCh).reverse

/-- Python `str.strip(",")`: drop commas from both ends
(used by `_clean_cell` of the tender extractor). -/
def stripCommasEnds (l : List Char) : List Char :=
  ((l.dropWhile (· = ',')).reverse.dropWhile (· = ',')).reverse

/-- A quote character, used to build the error strings of the source. -/
def sq : String := String.singleton (Char.ofNat 39)

/-- Length, within the separator-class run `t` that follows a leading
digit, of the prefix kept by the backtracked greedy match: everything up
to and including the last digit of `t` (`0` when `t` has no digit). -/
def matchLen (t : List Char) : Nat :=
  t.length - (t.reverse.takeWhile (fun c => !c.isDigit)).length

/-- The remainder of the scan after one numeric-run match starting at a
digit whose following run is `rest`. -/
def splitRest (rest : List Char) : List Char :=
  (rest.takeWhile isSepCh).drop (matchLen (rest.takeWhile isSepCh))
    ++ rest.dropWhile isSepCh

/-- `re.split(r"(\d[\d,./\-]*\d|\d)", text)`, fuelled so that the
kernel can evaluate it (the fuel is irrelevant once it covers the input
length; see `pySplitNumF_congr`). -/
def pySplitNumF : Nat → List Char → List (List Char)
  | _, [] => [[]]
  | 0, l => [l]
  | fuel + 1, c :: rest =>
    if c.isDigit then
      [] :: (c :: (rest.takeWhile isSepCh).take (matchLen (rest.takeWhile isSepCh)))
        :: pySplitNumF fuel (splitRest rest)
    else
      match pySplitNumF fuel rest with
      | [] => [[c]]
      | s :: ss => (c :: s) :: ss

/-- The full segment list of the split, alternating non-matching text
(digit-free) and captured numeric runs. -/
def pySplitNum (l : List Char) : List (List Char) := pySplitNumF l.length l

/-- The captured numeric runs of the split, in order (the segments the
source's `re.match(r"^\d[\d,./\-]*\d$|^\d$", seg)` test accepts),
fuelled. -/
def capturedSegsF : Nat → List Char → List (List Char)
  | _, [] => []
  | 0, _ => []
  | fuel + 1, c :: rest =>
    if c.isDigit then
      (c :: (rest.takeWhile isSepCh).take (matchLen (rest.takeWhile isSepCh)))
        :: capturedSegsF fuel (splitRest rest)
    else
      capturedSegsF fuel rest

/-- The captured numeric runs of the split. -/
def capturedSegs (l : List Char) : List (List Char) := capturedSegsF l.length l

/-- `re.match(r"^\d[\d,./\-]*\d$|^\d$", seg)` as a full-segment test:
a single digit, or digit … digit with separator-class characters between. -/
def isNumericSeg (seg : List Char) : Bool :=
  match seg with
  | [] => false
  | c :: rest =>
    if rest.isEmpty then c.isDigit
    else
      c.isDigit && rest.dropLast.all isSepCh &&
        (match rest.getLast? with
         | some d => d.isDigit
         | none => false)

/-- Body of the loop of `_reverse_hebrew`: numeric segments are kept,
all other segments are character-reversed. -/
def applySeg (seg : List Char) : List Char :=
  if isNumericSeg seg then seg else seg.reverse

/-- `_reverse_hebrew` on character lists: split at numeric runs, walk the
segments in reverse order, keep numeric runs and reverse the rest. -/
def reverseHebrewL (l : List Char) : List Char :=
  (((pySplitNum l).reverse).map applySeg).flatten

/-- `_reverse_hebrew(text)` (identical in `tender_pdf_extractor.py` and
`building_rights_extractor.py`). -/
def reverseHebrew (s : String) : String :=
  ⟨reverseHebrewL s.data⟩

/-! ## `_parse_numeric` (building_rights_extractor.py)

`re.sub(r"\(\d+\)\s*", "", raw)` and `re.sub(r"\s*\(\d+\)", "", raw)`
remove footnote references `(N)` together with trailing resp. leading
whitespace.  Both subs scan left to right and replace every
non-overlapping match. -/

/-- Does `l` start with `(` digits⁺ `)`?  If so, return the remainder
after the closing parenthesis. -/
def footnoteHead (l : List Char) : Option (List Char) :=
  match l with
  | c :: r =>
    if c = '(' then
      if (r.takeWhile isDigitCh).isEmpty then none
      else
        match r.drop (r.takeWhile isDigitCh).length with
        | c2 :: r2 => if c2 = ')' then some r2 else none
        | [] => none
    else none
  | [] => none

/-- `re.sub(r"\(\d+\)\s*", "", raw)`: remove every footnote reference
together with the whitespace that follows it (fuelled). -/
def stripFootnotePreF : Nat → List Char → List Char
  | _, [] => []
  | 0, l => l
  | fuel + 1, c :: rest =>
    match footnoteHead (c :: rest) with
    | some r => stripFootnotePreF fuel (r.dropWhile isWsCh)
    | none => c :: stripFootnotePreF fuel rest

def stripFootnotePre (l : List Char) : List Char := stripFootnotePreF l.length l

/-- `re.sub(r"\s*\(\d+\)", "", raw)`: remove every footnote reference
together with the whitespace that precedes it.  A match exists at a
position exactly when the maximal whitespace run starting there is
followed by `(` digits⁺ `)` (fuelled). -/
def stripFootnoteSufF : Nat → List Char → List Char
  | _, [] => []
  | 0, l => l
  | fuel + 1, c :: rest =>
    match footnoteHead ((c :: rest).dropWhile isWsCh) with
    | some r => stripFootnoteSufF fuel r
    | none => c :: stripFootnoteSufF fuel rest

def stripFootnoteSuf (l : List Char) : List Char := stripFootnoteSufF l.length l

/-- Value of a digit list, most significant first. -/
def digitsToNat (ds : List Char) : Nat :=
  ds.foldl (fun a c => 10 * a + (c.toNat - 48)) 0

/-- The unsigned part of the `float(s)` model: `digits [. digits]`. -/
def pyFloatCore (t1 : List Char) : Option ℚ :=
  match t1.drop (t1.takeWhile isDigitCh).length with
  | [] =>
    if (t1.takeWhile isDigitCh).isEmpty then none
    else some (digitsToNat (t1.takeWhile isDigitCh))
  | c :: r2 =>
    if c = '.' then
      if (r2.drop (r2.takeWhile isDigitCh).length).isEmpty = false then none
      else if (t1.takeWhile isDigitCh).isEmpty && r2.isEmpty then none
      else some ((digitsToNat (t1.takeWhile isDigitCh) : ℚ)
        + (digitsToNat (r2.takeWhile isDigitCh) : ℚ)
            / (10 : ℚ) ^ (r2.takeWhile isDigitCh).length)
    else none

/-- Model of Python `float(s)` on the plain decimal forms
`[ws] [sign] digits [. digits] [ws]` (at least one digit); everything
else — including the scientific/`inf`/`nan`/underscore forms that never
occur in these modules — is mapped to `none` (`ValueError`). -/
def pyFloat (l : List Char) : Option ℚ :=
  match pyStrip l with
  | [] => none
  | c :: r =>
    if c = '-' then (pyFloatCore r).map (fun q => -q)
    else if c = '+' then pyFloatCore r
    else pyFloatCore (c :: r)

/-- `_parse_numeric(raw)` of `building_rights_extractor.py`: strip
footnote references, drop thousands-separator commas, convert to float;
`None`, the empty string and unconvertible strings give `None`. -/
def parseNumeric (raw : Option String) : Option ℚ :=
  match raw with
  | none => none
  | some s =>
    if s.data.isEmpty then none
    else
      let c1 := pyStrip (stripFootnotePre s.data)
      let c2 := pyStrip (stripFootnoteSuf c1)
      if c2.isEmpty then none
      else pyFloat (c2.filter (· ≠ ','))

/-! ## `_is_header_row` (building_rights_extractor.py) -/

/-- The cells counted by `_is_header_row`:
`c is not None and str(c).strip()`. -/
def nonEmptyCells (row : List (Option String)) : List String :=
  row.filterMap (fun c =>
    match c with
    | none => none
    | some s => if (pyStrip s.data).isEmpty then none else some s)

/-- One cell's numeric test in `_is_header_row`: strip the cell, strip
footnote references, then `re.match(r"^[\d,.\-\s]+$", stripped)` —
nonempty and all characters in the class. -/
def isNumericCell (s : String) : Bool :=
  let cs := pyStrip s.data
  let st := pyStrip (stripFootnoteSuf (pyStrip (stripFootnotePre cs)))
  !st.isEmpty && st.all (fun c => c.isDigit || c = ',' || c = '.' || c = '-' || isWsCh c)

/-- Count of numeric cells among the non-empty cells of a row. -/
def numericCount (row : List (Option String)) : Nat :=
  ((nonEmptyCells row).filter isNumericCell).length

/-- `_is_header_row(row)`: empty rows and rows with no non-empty cell are
headers; otherwise a row is a header when fewer than 30 % of its
non-empty cells are numeric (`numeric_count < len(non_none_cells) * 0.3`,
modelled exactly as `10 * numeric_count < 3 * len`). -/
def isHeaderRow (row : List (Option String)) : Bool :=
  if row.isEmpty then true
  else
    let ne := nonEmptyCells row
    if ne.isEmpty then true
    else decide (10 * numericCount row < 3 * ne.length)

/-! ## String helpers shared by the table classifiers -/

/-- Python `needle in hay` on strings. -/
def inStr (needle hay : String) : Bool :=
  decide (needle.data <:+: hay.data)

/-- Python `s.split()`: whitespace-separated words, empties removed. -/
def pyWords (l : List Char) : List (List Char) :=
  (l.splitOnP isWsCh).filter (fun w => !w.isEmpty)

/-- Python `" ".join(s.split())`: collapse whitespace runs to single
spaces and trim. -/
def flattenWs (l : List Char) : List Char :=
  List.intercalate [' '] (pyWords l)

/-- `re.sub(r"\s*/\s*", "/", s)`: a match exists at a position exactly
when the maximal whitespace run starting there is followed by `/`; the
slash and surrounding whitespace collapse to a single `/`. -/
def normSlashF : Nat → List Char → List Char
  | _, [] => []
  | 0, l => l
  | fuel + 1, c :: rest =>
    match (c :: rest).dropWhile isWsCh with
    | d :: r2 =>
      if d = '/' then '/' :: normSlashF fuel (r2.dropWhile isWsCh)
      else c :: normSlashF fuel rest
    | [] => c :: normSlashF fuel rest

def normSlash (l : List Char) : List Char := normSlashF l.length l

/-- `re.sub(r"\s*\n\s*", rep, s)`: a match at a position is exactly a
maximal whitespace run containing at least one newline; it is replaced
by `rep` (`", "` in the tender `_clean_cell`, `" "` in the
building-rights `_clean_cell`). -/
def collapseNlF (rep : List Char) : Nat → List Char → List Char
  | _, [] => []
  | 0, l => l
  | fuel + 1, c :: rest =>
    if ((c :: rest).takeWhile isWsCh).contains '\n' then
      rep ++ collapseNlF rep fuel ((c :: rest).dropWhile isWsCh)
    else
      c :: collapseNlF rep fuel rest

def collapseNl (rep : List Char) (l : List Char) : List Char :=
  collapseNlF rep l.length l

/-! ## Tender extractor (`tender_pdf_extractor.py`) -/

/-- `MAX_PAGES_TO_SCAN` of the tender extractor. -/
def MAX_PAGES_TO_SCAN : Nat := 15

/-- `HEADER_KEYWORDS` (insertion order preserved). -/
def HEADER_KEYWORDS : List (String × List String) :=
  [("gush", ["גוש", "שוג", "ש וג"]),
   ("helka", ["חלקה", "הקלח"]),
   ("migrash", ["מגרש", "שרגמ", "ש רגמ"]),
   ("mitham", ["מתחם", "םחתמ", "ם חתמ"]),
   ("area", ["שטח", "חטש"]),
   ("min_price", ["מחיר", "ריחמ"]),
   ("guarantee", ["ערבות", "תוברע", "ת וברע"])]

/-- `COMBINED_GUSH_HELKA_KEYWORDS`. -/
def COMBINED_GUSH_HELKA_KEYWORDS : List String := ["גוש/חלקה", "הקלח/שוג"]

/-- `NON_LAND_KEYWORDS` — quarrying / excavation-surplus tenders. -/
def NON_LAND_KEYWORDS : List String :=
  ["יפדוע הריפח", "עודפי חפירה", "הייירכ", "כרייה"]

/-- `ANNOUNCEMENT_KEYWORDS` — date-change / update-notice documents.
Note: this constant is defined in the source but never read by any
function of the repository. -/
def ANNOUNCEMENT_KEYWORDS : List String :=
  ["םידעומ תייחד", "דחיית מועדים", "ןוכדע תעדומ", "מודעת עדכון"]

/-- `STRONG_FIELDS` (a set in the source; only membership and counting
are used, so order is irrelevant). -/
def STRONG_FIELDS : List String := ["gush", "helka", "migrash", "gush_helka"]

/-- `MIN_KEY_COLUMNS`. -/
def MIN_KEY_COLUMNS : Nat := 1

/-- A parsed plot row: the Python dict `field name → value-or-None`,
kept in insertion order. -/
abbrev Plot := List (String × Option String)

/-- A pdfplumber table: rows of optional cell strings. -/
abbrev RawTable := List (List (Option String))

/-- Python dict membership. -/
def dictContains (d : List (String × Nat)) (k : String) : Bool :=
  d.any (·.1 = k)

/-- Python dict assignment `d[k] = v`: overwrite in place, or append. -/
def dictSet (d : List (String × Nat)) (k : String) (v : Nat) : List (String × Nat) :=
  if d.any (·.1 = k) then d.map (fun p => if p.1 = k then (k, v) else p)
  else d ++ [(k, v)]

/-- Python dict lookup returning the stored value (key known present). -/
def dictGet (d : List (String × Nat)) (k : String) : Nat :=
  ((d.find? (·.1 = k)).map (·.2)).getD 0

/-- Plot dict lookup flattened: `p.get(k)` is `None` both when the key
is absent and when the stored value is `None`. -/
def plotGet (p : Plot) (k : String) : Option String :=
  ((List.find? (·.1 = k) p).map (·.2)).join

/-- Plot dict assignment. -/
def plotSet (p : Plot) (k : String) (v : Option String) : Plot :=
  if (List.any p (·.1 = k)) then List.map (fun q => if q.1 = k then (k, v) else q) p
  else p ++ [(k, v)]

/-- `_clean_cell` of the tender extractor: collapse newline runs to
`", "`, strip, strip bordering commas, strip again; empty → `None`. -/
def cleanCellT (v : Option String) : Option String :=
  match v with
  | none => none
  | some s =>
    let c1 := pyStrip (collapseNl [',', ' '] s.data)
    let c2 := pyStrip (stripCommasEnds c1)
    if c2.isEmpty then none else some ⟨c2⟩

/-- `_header_matches(cell_text, keyword_list)`. -/
def headerMatches (cell : String) (kws : List String) : Bool :=
  if cell.data.isEmpty then false
  else
    let cleaned : String := ⟨flattenWs cell.data⟩
    kws.any (fun kw => inStr kw cleaned)

/-- `_find_column_indices(header_row)`: map field names to column
indices, with the combined `גוש/חלקה` column checked first (after
normalising space around `/`). -/
def findColumnIndices (header : List (Option String)) : List (String × Nat) :=
  header.enum.foldl (fun ind p =>
    match p.2 with
    | none => ind
    | some s =>
      let norm : String := ⟨normSlash (flattenWs s.data)⟩
      if COMBINED_GUSH_HELKA_KEYWORDS.any (fun kw => inStr kw norm) then
        dictSet ind "gush_helka" p.1
      else
        HEADER_KEYWORDS.foldl (fun ind2 fk =>
          if !dictContains ind2 fk.1 && headerMatches s fk.2 then
            dictSet ind2 fk.1 p.1
          else ind2) ind) []

/-- `_score_table(col_indices)`: number of strong fields present. -/
def scoreTable (ind : List (String × Nat)) : Nat :=
  (STRONG_FIELDS.filter (dictContains ind)).length

/-- One row of `_parse_plot_table`'s skip test:
`all(cell is None or str(cell).strip() == "" for cell in row)`. -/
def rowBlank (row : List (Option String)) : Bool :=
  row.all (fun c =>
    match c with
    | none => true
    | some s => (pyStrip s.data).isEmpty)

/-- The `has_long_cell` filter: some mapped, truthy cell whose stripped
text exceeds 100 characters. -/
def hasLongCell (ind : List (String × Nat)) (row : List (Option String)) : Bool :=
  ind.any (fun fc =>
    fc.2 < row.length &&
      (match row.getD fc.2 none with
       | none => false
       | some s => !s.data.isEmpty && (pyStrip s.data).length > 100))

/-- Split `v` at the first `/` (Python `split("/", 1)`). -/
def splitFirstSlash (v : List Char) : List Char × List Char :=
  (v.takeWhile (· ≠ '/'), (v.dropWhile (· ≠ '/')).drop 1)

/-- Build one plot dict from a data row of the matched table. -/
def buildPlot (ind : List (String × Nat)) (row : List (Option String)) : Plot :=
  let p0 : Plot := []
  let p1 :=
    if dictContains ind "gush_helka" then
      let ci := dictGet ind "gush_helka"
      if ci < row.length then
        let raw := cleanCellT (row.getD ci none)
        match raw with
        | some v =>
          if v.data.contains '/' then
            let pr := splitFirstSlash v.data
            plotSet (plotSet p0 "gush" (some ⟨pyStrip pr.1⟩)) "helka" (some ⟨pyStrip pr.2⟩)
          else
            plotSet (plotSet p0 "gush" raw) "helka" raw
        | none => plotSet (plotSet p0 "gush" none) "helka" none
      else p0
    else p0
  ind.foldl (fun p fc =>
    if fc.1 = "gush_helka" then p
    else if fc.2 < row.length then plotSet p fc.1 (cleanCellT (row.getD fc.2 none))
    else p) p1

/-- `_parse_plot_table(table, page_num)`: returns the parsed plots and
the strong-field score (`([], 0)` when the table is not a match). -/
def parsePlotTable (table : RawTable) : List Plot × Nat :=
  match table with
  | [] => ([], 0)
  | headerRow :: dataRows =>
    if dataRows.isEmpty then ([], 0)
    else
      let ind := findColumnIndices headerRow
      let score := scoreTable ind
      if score < MIN_KEY_COLUMNS && !(dictContains ind "mitham" && ind.length ≥ 2) then
        ([], 0)
      else
        let plots := dataRows.foldl (fun acc row =>
          if row.isEmpty || rowBlank row then acc
          else if hasLongCell ind row then acc
          else
            let p := buildPlot ind row
            if p.any (·.2.isSome) then acc ++ [p] else acc) []
        (plots, score)

/-! ### Abstract PDF model and entry point of `TenderPDFExtractor.extract`

A page carries the outcome of `page.extract_text()` (which may raise, or
return `None`) and of `page.extract_tables()` (which may raise).  The
free-text helper functions `_extract_plan_number`, `_extract_purpose`
and `_extract_gush_helka_from_text` are pure functions of the page text;
the claims under verification are independent of their internals, so the
embedding takes them as parameters (`TextHelpers`) and the theorems
quantify over them.  Path-derived metadata (`source_file`,
`extraction_method`) is constant and untouched by every claim, so it is
omitted from the result model; the `File not found` message is modelled
without the interpolated path. -/

structure TPage where
  text : Except String (Option String)
  tables : Except String (List RawTable)

inductive TPdf where
  | missing
  | openFail (msg : String)
  | pages (ps : List TPage)

/-- Result of `_extract_gush_helka_from_text`: always a `gush`,
optionally a `helka`. -/
structure GushInfo where
  gush : String
  helka : Option String

/-- The three regex text-mining helpers of the tender module, taken as
parameters of the embedding. -/
structure TextHelpers where
  planOf : String → Option String
  purposeOf : String → Option String
  gushOf : String → Option GushInfo

/-- `ExtractionResult` of the tender extractor (claim-relevant fields). -/
structure TResult where
  plots : List Plot
  taba : Option String
  purpose : Option String
  success : Bool
  errors : List String
deriving DecidableEq

/-- The freshly initialised result dict of `extract`. -/
def initT : TResult :=
  { plots := [], taba := none, purpose := none, success := false, errors := [] }

/-- The error string of the catch block of `extract`. -/
def pdfFailMsg (m : String) : String := "pdfplumber extraction failed: " ++ m

/-- The error string of the non-land denylist short-circuit. -/
def nonLandMsg (kw : String) : String :=
  "non_land_tender: matched " ++ sq ++ kw ++ sq

/-- Out-of-range page access never happens on honest runs; the default
keeps the functions total. -/
def defaultTPage : TPage := ⟨.ok none, .ok []⟩

def pageAtT (ps : List TPage) (i : Nat) : TPage := ps.getD i defaultTPage

/-- `page.extract_text() or ""`. -/
def pageTextT (p : TPage) : Except String String :=
  (p.text).map (fun t => t.getD "")

/-- The first-two-pages text used for the denylist check:
`(pages[i].extract_text() or "") + "\n"` concatenated. -/
def buildFirstText (ps : List TPage) (toScan : Nat) : Except String String :=
  (List.range (min 2 toScan)).foldlM (fun acc i => do
    let t ← pageTextT (pageAtT ps i)
    pure (acc ++ t ++ "\n")) ""

/-- Accumulator of the page loop of `_extract_with_pdfplumber`:
the result dict, the local `best_table_score`, and `all_text_pages`. -/
structure TScan where
  res : TResult
  best : Nat
  texts : List String

/-- The table-selection update of the page loop: keep a parsed table's
plots only when it has rows and strictly improves `best_table_score`. -/
def updBest (pb : List Plot × Nat) (entry : List Plot × Nat) : List Plot × Nat :=
  if !entry.1.isEmpty && entry.2 > pb.2 then entry else pb

/-- The page loop of `_extract_with_pdfplumber` over the page indices:
parse tables against the running best score, then fill `taba` and
`purpose` from the page text on first success.  A raised exception
carries the result state populated so far (Python mutates the dict in
place). -/
def tenderLoop (H : TextHelpers) (ps : List TPage) :
    List Nat → TScan → Except (TResult × String) TScan
  | [], st => .ok st
  | i :: is, st =>
    match pageTextT (pageAtT ps i) with
    | .error m => .error (st.res, m)
    | .ok text =>
      match (pageAtT ps i).tables with
      | .error m => .error (st.res, m)
      | .ok tables =>
        let pb := tables.foldl (fun pb tbl => updBest pb (parsePlotTable tbl))
          (st.res.plots, st.best)
        let taba' := match st.res.taba with
          | some t => some t
          | none => H.planOf text
        let purpose' := match st.res.purpose with
          | some t => some t
          | none => H.purposeOf text
        tenderLoop H ps is
          ⟨{ st.res with plots := pb.1, taba := taba', purpose := purpose' },
            pb.2, st.texts ++ [text]⟩

/-- `p.get("gush") in (None, "-")`. -/
def gushMissing (p : Plot) : Bool :=
  match plotGet p "gush" with
  | none => true
  | some v => v = "-"

/-- `p.get("helka") in (None, "-")`. -/
def helkaMissing (p : Plot) : Bool :=
  match plotGet p "helka" with
  | none => true
  | some v => v = "-"

/-- Patch one plot from the text-based gush/helka fallback. -/
def patchPlot (g : GushInfo) (p : Plot) : Plot :=
  let p1 := if gushMissing p then plotSet p "gush" (some g.gush) else p
  match g.helka with
  | some h => if helkaMissing p1 then plotSet p1 "helka" (some h) else p1
  | none => p1

/-- The single plot dict synthesised by the text fallback when no table
matched. -/
def gushPlot (g : GushInfo) : Plot :=
  ("gush", some g.gush) ::
    (match g.helka with
     | some h => [("helka", some h)]
     | none => [])

/-- `_extract_with_pdfplumber(pdf_path, result)`: denylist check on the
first two pages, page loop, combined-text plan fallback, text-based
gush/helka fallback. -/
def tenderInner (maxPages : Nat) (H : TextHelpers) (ps : List TPage) :
    Except (TResult × String) TResult :=
  let toScan := min ps.length maxPages
  match buildFirstText ps toScan with
  | .error m => .error (initT, m)
  | .ok ft =>
    match NON_LAND_KEYWORDS.find? (fun kw => inStr kw ft) with
    | some kw => .ok { initT with errors := initT.errors ++ [nonLandMsg kw] }
    | none =>
      match tenderLoop H ps (List.range toScan) ⟨initT, 0, []⟩ with
      | .error e => .error e
      | .ok st =>
        let combined := String.intercalate "\n" st.texts
        let r1 := st.res
        let r2 := match r1.taba with
          | some _ => r1
          | none => { r1 with taba := H.planOf combined }
        let missingG := !r2.plots.isEmpty && r2.plots.all gushMissing
        let noPlots := r2.plots.isEmpty
        let r3 :=
          if missingG || noPlots then
            match H.gushOf combined with
            | none => r2
            | some g =>
              if missingG then { r2 with plots := r2.plots.map (patchPlot g) }
              else { r2 with plots := r2.plots ++ [gushPlot g] }
          else r2
        .ok r3

/-- Line 436 of the source: `result["success"] = bool(result["plots"]) or
result["taba"] is not None`, applied on every path through the
`try`/`except` (but not on the early `File not found` return). -/
def finalizeT (r : TResult) : TResult :=
  { r with success := !r.plots.isEmpty || r.taba.isSome }

/-- `TenderPDFExtractor.extract(pdf_path)`. -/
def tExtract (maxPages : Nat) (H : TextHelpers) (pdf : TPdf) : TResult :=
  match pdf with
  | .missing => { initT with errors := initT.errors ++ ["File not found"] }
  | .openFail m => finalizeT { initT with errors := initT.errors ++ [pdfFailMsg m] }
  | .pages ps =>
    match tenderInner maxPages H ps with
    | .ok r => finalizeT r
    | .error (r, m) => finalizeT { r with errors := r.errors ++ [pdfFailMsg m] }

/-! ## Building-rights extractor (`building_rights_extractor.py`)

The same abstract page model (`TPage`) is reused: a page is the outcome
of `extract_text()` and `extract_tables()`. -/

/-- `MAX_PAGES_TO_SCAN` of the building-rights extractor. -/
def BR_MAX_PAGES_TO_SCAN : Nat := 30

/-- `SECTION_KEYWORDS` (one entry is duplicated in the source). -/
def SECTION_KEYWORDS : List String :=
  ["טבלת זכויות", "תויוכז תלבט",
   "זכויות והוראות בנייה", "הינב תוארוהו תויוכז",
   "זכויות והוראות בניה", "הינב תוארוהו תויוכז"]

/-- `STATUS_KEYWORDS` in dict insertion order. -/
def STATUS_KEYWORDS : List (String × String) :=
  [("מצב מוצע", "מצב מוצע"), ("עצומ בצמ", "מצב מוצע"),
   ("מצב מאושר", "מצב מאושר"), ("רשואמ בצמ", "מצב מאושר")]

/-- `COLUMN_KEYWORDS`, with each regex pattern compiled to the list of
literal pieces joined by `.*` (and `י?` expanded into its two
alternatives, which is equivalent for `re.search` existence). -/
def COLUMN_KEYWORDS : List (String × List (List String)) :=
  [("designation", [["יעוד"]]),
   ("use", [["שימוש"]]),
   ("area_condition", [["תאי שטח"]]),
   ("plot_size_absolute", [["מוחלט"]]),
   ("plot_size_minimum", [["מזערי"]]),
   ("building_area_above_main", [["מעל", "עיקרי"], ["עיקרי", "מעל"]]),
   ("building_area_above_service",
     [["מעל", "שירות"], ["מעל", "שרות"], ["שירות", "מעל"], ["שרות", "מעל"]]),
   ("building_area_below_main", [["מתחת", "עיקרי"], ["עיקרי", "מתחת"]]),
   ("building_area_below_service",
     [["מתחת", "שירות"], ["מתחת", "שרות"], ["שירות", "מתחת"], ["שרות", "מתחת"]]),
   ("building_area_total", [["סה", "כ", "שטחי"]]),
   ("coverage_pct", [["תכסית"]]),
   ("housing_units", [["יח", "ד"]]),
   ("building_height", [["גובה"]]),
   ("floors_above", [["קומות", "מעל"], ["מעל", "קומות"]]),
   ("floors_below", [["קומות", "מתחת"], ["מתחת", "קומות"]]),
   ("setback_rear", [["אחורי"]]),
   ("setback_front", [["קדמי"]]),
   ("setback_side", [["צידי"]]),
   ("balcony_area", [["מרפסות"], ["תוספרמ"]])]

/-- `NUMERIC_FIELDS` (set; only membership is used). -/
def NUMERIC_FIELDS : List String :=
  ["plot_size_absolute", "plot_size_minimum",
   "building_area_above_main", "building_area_above_service",
   "building_area_below_main", "building_area_below_service",
   "building_area_total", "coverage_pct", "housing_units",
   "building_height", "floors_above", "floors_below",
   "setback_rear", "setback_front", "setback_side",
   "balcony_area"]

/-- `TEXT_FIELDS`. -/
def TEXT_FIELDS : List String := ["designation", "use", "area_condition"]

/-- `_clean_cell` of the building-rights extractor: collapse newline
runs to a single space, strip; empty → `None`. -/
def cleanCellB (v : Option String) : Option String :=
  match v with
  | none => none
  | some s =>
    let c := pyStrip (collapseNl [' '] s.data)
    if c.isEmpty then none else some ⟨c⟩

/-- Does `pat` occur at the head of `t`? -/
def startsWithL : List Char → List Char → Bool
  | [], _ => true
  | _ :: _, [] => false
  | a :: as, b :: bs => a = b && startsWithL as bs

/-- `re.search` existence for a pattern `l₁.*l₂.*…` inside one line:
each literal occurs, in order, without overlap. -/
def seqSearch (pats : List (List Char)) (t : List Char) : Bool :=
  match pats with
  | [] => true
  | lit :: ls =>
    (List.range (t.length + 1)).any (fun i =>
      startsWithL lit (t.drop i) && seqSearch ls ((t.drop i).drop lit.length))

/-- `re.search(keyword, header)` for one compiled pattern: `.` does not
cross newlines, so the whole match lies within one line. -/
def reSearchPat (pat : List String) (t : List Char) : Bool :=
  (t.splitOnP (· = '\n')).any (fun line => seqSearch (pat.map (·.data)) line)

/-- Does the header match any compiled pattern of a field? -/
def fieldMatches (pats : List (List String)) (header : String) : Bool :=
  pats.any (fun p => reSearchPat p header.data)

/-- `val is not None and str(val).strip()` — the truthiness test of the
header-merge helpers. -/
def isTruthyCell (v : Option String) : Bool :=
  match v with
  | none => false
  | some s => !(pyStrip s.data).isEmpty

/-- `_forward_fill_row(row)`: replace `None`/blank cells with the last
truthy value seen to their left. -/
def forwardFillRow (row : List (Option String)) : List (Option String) :=
  (row.foldl (fun (acc : List (Option String) × Option String) val =>
    if isTruthyCell val then
      (acc.1 ++ [val], match val with | some s => some s | none => none)
    else
      match acc.2 with
      | some lv => (acc.1 ++ [some lv], some lv)
      | none => (acc.1 ++ [val], none)) ([], none)).1

/-- One sub-header row of `_merge_header_rows`: forward-fill only within
the span of the same parent value of the (already filled) top row. -/
def fillSubRow (filledTop : List (Option String)) (numCols : Nat)
    (row0 : List (Option String)) : List (Option String) :=
  let row := row0 ++ List.replicate (numCols - row0.length) none
  ((List.range numCols).foldl
    (fun (st : List (Option String) × Option String × Option String) col =>
      let parent := filledTop.getD col none
      let cell := row.getD col none
      if isTruthyCell cell then
        (st.1 ++ [cell], (match cell with | some s => some s | none => none), parent)
      else if st.2.1.isSome && parent.isSome && parent = st.2.2 then
        (st.1 ++ [st.2.1], st.2.1, st.2.2)
      else
        (st.1 ++ [cell], none, parent)) ([], none, none)).1

/-- `_merge_header_rows(header_rows)`: forward-fill, pad, concatenate the
distinct cleaned values per column with `" | "`, and reverse the Hebrew. -/
def mergeHeaderRows (headerRows : List (List (Option String))) : List String :=
  match headerRows with
  | [] => []
  | top :: subs =>
    let numCols := ((top :: subs).map (·.length)).foldl max 0
    let filledTop := forwardFillRow top ++ List.replicate (numCols - top.length) none
    let paddedRows := filledTop :: subs.map (fillSubRow filledTop numCols)
    (List.range numCols).map (fun col =>
      let parts := paddedRows.foldl (fun (parts : List String) row =>
        match cleanCellB (row.getD col none) with
        | some v => if parts.contains v then parts else parts ++ [v]
        | none => parts) []
      if parts.isEmpty then ""
      else (reverseHebrew (String.intercalate " | " parts)))

/-- `_map_columns(merged_headers)`: first matching unclaimed field per
column, each field claimed at most once. -/
def mapColumns (headers : List String) : List (Nat × String) :=
  (headers.enum.foldl (fun (acc : List (Nat × String) × List String) p =>
    if p.2.data.isEmpty then acc
    else
      match COLUMN_KEYWORDS.find? (fun fk =>
        !acc.2.contains fk.1 && fieldMatches fk.2 p.2) with
      | some fk => (acc.1 ++ [(p.1, fk.1)], acc.2 ++ [fk.1])
      | none => acc) ([], [])).1

/-- A typed cell value of a rights row. -/
inductive FieldVal where
  | num (q : ℚ)
  | txt (s : String)
deriving DecidableEq

/-- One parsed rights row: the typed mapped values, and the `_raw`
side-channel of untransformed cleaned strings. -/
structure RRow where
  fields : List (String × Option FieldVal)
  raw : List (String × Option String)
deriving DecidableEq

/-- Typed and raw values of one data row under a column map (the inner
loop of `_parse_table`'s row parsing). -/
def parseRow (cmap : List (Nat × String)) (row : List (Option String)) :
    List (String × Option FieldVal) × List (String × Option String) :=
  cmap.foldl
    (fun (rd : List (String × Option FieldVal) × List (String × Option String)) cf =>
      if row.length ≤ cf.1 then rd
      else
        let rawv := cleanCellB (row.getD cf.1 none)
        let value : Option FieldVal :=
          if NUMERIC_FIELDS.contains cf.2 then
            (parseNumeric rawv).map FieldVal.num
          else
            rawv.map (fun v => FieldVal.txt (reverseHebrew v))
        (rd.1 ++ [(cf.2, value)], rd.2 ++ [(cf.2, rawv)])) ([], [])

/-- The data-row fold of `_parse_table`: skip blank rows, keep a parsed
row only when it has at least one non-null mapped value. -/
def parseDataRows (cmap : List (Nat × String))
    (rs : List (List (Option String))) (acc : List RRow) : List RRow :=
  rs.foldl (fun acc row =>
    if row.isEmpty || rowBlank row then acc
    else
      let rd := parseRow cmap row
      if rd.1.any (·.2.isSome) then acc ++ [⟨rd.1, rd.2⟩] else acc) acc

/-- `_parse_table(raw_table)`: header detection, header merge, column
mapping, data-row parsing. -/
def parseTable (rawTable : RawTable) :
    List RRow × List String × List (Nat × String) :=
  let headerRows := rawTable.takeWhile isHeaderRow
  if headerRows.isEmpty then ([], [], [])
  else
    let merged := mergeHeaderRows headerRows
    let cmap := mapColumns merged
    if cmap.isEmpty then ([], merged, [])
    else
      (parseDataRows cmap (rawTable.drop headerRows.length) [], merged, cmap)

/-- `max(len(row) for row in table)`. -/
def maxCols (t : RawTable) : Nat := (t.map (·.length)).foldl max 0

/-- `_select_rights_table(tables)`: the table with the largest
rows × columns product among tables with ≥ 3 rows and ≥ 5 columns. -/
def selectRightsTable (tables : List RawTable) : Option RawTable :=
  (tables.foldl (fun (best : Option RawTable × Nat) tbl =>
    if tbl.length < 3 then best
    else
      let nc := maxCols tbl
      if nc < 5 then best
      else if tbl.length * nc > best.2 then (some tbl, tbl.length * nc)
      else best) (none, 0)).1

/-- Pages of the building-rights PDF (reusing the tender page model). -/
inductive BPdf where
  | missing
  | openFail (msg : String)
  | pages (ps : List TPage)

/-- A located Section-5 page: its index and the status found on it. -/
structure Sec where
  idx : Nat
  status : Option String
deriving DecidableEq

/-- `_find_section5_pages(pdf)`. -/
def findSection5 (ps : List TPage) : Except String (List Sec) :=
  (List.range (min ps.length BR_MAX_PAGES_TO_SCAN)).foldlM (fun acc i => do
    let t ← pageTextT (pageAtT ps i)
    if SECTION_KEYWORDS.any (fun kw => inStr kw t) then
      pure (acc ++ [⟨i, (STATUS_KEYWORDS.find? (fun kv => inStr kv.1 t)).map (·.2)⟩])
    else
      pure acc) []

/-- The continuation scan of `_extract_table_from_pages`: append data
rows of same-width tables on following pages, stopping at a new section
header, a missing table, or a width change. -/
def contLoop (ps : List TPage) (numCols : Nat) :
    List Nat → RawTable → Except String RawTable
  | [], acc => .ok acc
  | i :: is, acc =>
    match pageTextT (pageAtT ps i) with
    | .error m => .error m
    | .ok t =>
      if SECTION_KEYWORDS.any (fun kw => inStr kw t) then .ok acc
      else
        match (pageAtT ps i).tables with
        | .error m => .error m
        | .ok tbls =>
          match selectRightsTable tbls with
          | none => .ok acc
          | some nt =>
            if maxCols nt ≠ numCols then .ok acc
            else
              let ds := (nt.findIdx? (fun r => !isHeaderRow r)).getD 0
              let cont := nt.drop ds
              contLoop ps numCols is (if cont.isEmpty then acc else acc ++ cont)

/-- `_extract_table_from_pages(pdf, start_page_idx)`. -/
def extractTableFromPages (ps : List TPage) (start : Nat) :
    Except String (Option RawTable) := do
  let tbls ← (pageAtT ps start).tables
  match selectRightsTable tbls with
  | none => pure none
  | some mt =>
    let idxs := List.range' (start + 1) (min ps.length (start + 15) - (start + 1))
    let combined ← contLoop ps (maxCols mt) idxs mt
    pure (some combined)

/-- `BuildingRightsResult` (claim-relevant fields; `extraction_method`
is a constant and the file-not-found message is modelled without the
interpolated path). -/
structure BRResult where
  plan_number : String
  status : Option String
  rows : List RRow
  source_page : Option Nat
  raw_headers : List String
  column_map : List (String × String)
  success : Bool
  errors : List String
deriving DecidableEq

def brFailMsg (m : String) : String := "Extraction failed: " ++ m

def noSectionMsg : String := "Section 5 not found in PDF"

def noRowsMsg : String := "Table found but no data rows parsed"

/-- The freshly initialised result of `extract_building_rights`
(`plan_number or pdf_path.stem`, with Python string truthiness). -/
def initBR (planNumber : Option String) (stem : String) : BRResult :=
  { plan_number :=
      match planNumber with
      | some p => if p.isEmpty then stem else p
      | none => stem,
    status := none, rows := [], source_page := none, raw_headers := [],
    column_map := [], success := false, errors := [] }

/-- The section-page loop of `extract_building_rights`: try each located
Section-5 page until one yields parsed rows. -/
def brLoop (ps : List TPage) :
    List Sec → BRResult → Except (BRResult × String) BRResult
  | [], st => .ok st
  | s :: rest, st =>
    let st1 := { st with status := s.status, source_page := some (s.idx + 1) }
    match extractTableFromPages ps s.idx with
    | .error m => .error (st1, m)
    | .ok none => brLoop ps rest st1
    | .ok (some raw) =>
      let prc := parseTable raw
      if prc.1.isEmpty then brLoop ps rest st1
      else
        .ok { st1 with
              rows := prc.1,
              raw_headers := (prc.2).1,
              column_map := ((prc.2).2).map (fun p => (toString p.1, p.2)),
              success := true }

/-- `extract_building_rights(pdf_path, plan_number)`. -/
def extractBR (planNumber : Option String) (stem : String) (pdf : BPdf) :
    BRResult :=
  let r0 := initBR planNumber stem
  match pdf with
  | .missing => { r0 with errors := ["File not found"] }
  | .openFail m => { r0 with errors := [brFailMsg m] }
  | .pages ps =>
    match findSection5 ps with
    | .error m => { r0 with errors := [brFailMsg m] }
    | .ok sections =>
      if sections.isEmpty then { r0 with errors := [noSectionMsg] }
      else
        match brLoop ps sections r0 with
        | .error e => { e.1 with errors := [brFailMsg e.2] }
        | .ok st =>
          if st.success then st else { st with errors := [noRowsMsg] }

/-! ## Claims about `_reverse_hebrew` -/

/-- A Hebrew letter (the basic Unicode Hebrew letter block `א`–`ת`). -/
def isHebrewLetter (c : Char) : Bool :=
  1488 ≤ c.toNat && c.toNat ≤ 1514

/-! ## Claim C6: the footnote round-trip of `_parse_numeric` -/

/-- Plain non-negative decimal number strings, the grammar
`digits [. digits]` with at least one digit: exactly the non-negative
inputs `float()` accepts among the forms that occur in these tables. -/
def isPlainDecimal (v : List Char) : Bool :=
  match v.drop (v.takeWhile isDigitCh).length with
  | [] => !v.isEmpty
  | c :: r2 =>
    c = '.' && r2.all isDigitCh
      && !((v.takeWhile isDigitCh).isEmpty && r2.isEmpty)

/-! ## Claims C2–C5: concrete scenario inputs

`noneHelpers` instantiates the three regex text-mining parameters with
constant `None`.  On every page text occurring in the concrete scenarios
below (`""`, short Hebrew phrases without plan-number patterns) the real
`_extract_plan_number`, `_extract_purpose` and
`_extract_gush_helka_from_text` also return `None`, so the instantiation
is faithful at these inputs. -/

def noneHelpers : TextHelpers :=
  ⟨fun _ => none, fun _ => none, fun _ => none⟩

/-- A PDF whose page 1 carries a strong plot table, page 3's
`extract_text()` raises: the library fails midway after data was found. -/
def pdfC2 : TPdf := TPdf.pages
  [⟨.ok (some ""), .ok [[[some "גוש"], [some "123"]]]⟩,
   ⟨.ok (some ""), .ok []⟩,
   ⟨.error "boom", .ok []⟩]

/-- A PDF whose first page contains the announcement keyword
`דחיית מועדים` and a strong plot table. -/
def pdfC3 : TPdf := TPdf.pages
  [⟨.ok (some "הודעה על דחיית מועדים"), .ok [[[some "גוש"], [some "123"]]]⟩]

/-- The weak-match table: no strong field, `mitham` plus `area`. -/
def weakTable : RawTable := [[some "מתחם", some "שטח"], [some "1", some "500"]]

def pdfC4 : TPdf := TPdf.pages [⟨.ok (some ""), .ok [weakTable]⟩]

/-- Pages of a Section-5 PDF with no table at all (failure mode:
section found, no table meets the size threshold). -/
def pdfC5b : BPdf := BPdf.pages [⟨.ok (some "טבלת זכויות"), .ok []⟩]

/-- A big-enough table whose headers match no known field. -/
def tableC5 : RawTable :=
  [[some "אאא", some "בבב", some "גגג", some "דדד", some "ההה"],
   [some "ווו", some "זזז", some "חחח", some "טטט", some "ילי"],
   [some "ככך", some "לל", some "ממם", some "ננן", some "סס"]]

/-- Pages of a Section-5 PDF with a table but zero parsed rows. -/
def pdfC5c : BPdf := BPdf.pages [⟨.ok (some "טבלת זכויות"), .ok [tableC5]⟩]

/-! ## Claim C2 (amended): exception handling of both entry points -/

/-- The exception (if any) raised by the pdfplumber layer during
`TenderPDFExtractor.extract`. -/
def tExtractRaise (maxPages : Nat) (H : TextHelpers) (pdf : TPdf) :
    Option String :=
  match pdf with
  | .missing => none
  | .openFail m => some m
  | .pages ps =>
    match tenderInner maxPages H ps with
    | .ok _ => none
    | .error e => some e.2

/-- The exception (if any) raised by the pdfplumber layer during
`extract_building_rights`. -/
def brRaise (pn : Option String) (stem : String) (pdf : BPdf) :
    Option String :=
  match pdf with
  | .missing => none
  | .openFail m => some m
  | .pages ps =>
    match findSection5 ps with
    | .error m => some m
    | .ok sections =>
      if sections.isEmpty then none
      else
        match brLoop ps sections (initBR pn stem) with
        | .error e => some e.2
        | .ok _ => none

/-! ## Claim C4 (amended): table selection keeps only the best strong
match, and score-0 (weak) tables never reach the result -/

/-- The selection fold of the page loop, flattened over a table list:
exactly the `if plots and score > best_table_score` update of
`_extract_with_pdfplumber`, starting from no table. -/
def selectPlots (tables : List RawTable) : List Plot × Nat :=
  tables.foldl (fun pb tbl => updBest pb (parsePlotTable tbl)) ([], 0)

/-- The best score among tables that parse to a nonempty plot list. -/
def maxScore (tables : List RawTable) : Nat :=
  tables.foldl (fun m tbl =>
    if (parsePlotTable tbl).1.isEmpty then m
    else max m (parsePlotTable tbl).2) 0

/-- Tables of a page (empty when `extract_tables` raised). -/
def tablesOf (p : TPage) : List RawTable :=
  match p.tables with
  | .ok t => t
  | .error _ => []

/-- A building-rights PDF whose single page carries a Section-5 header
and a well-formed rights table (used to witness the C10 invariants). -/
def brGoodTable : RawTable :=
  [[some "דועי", some "שומיש", some "טלחומ", some "ירעזמ", some "הבוג"],
   [some "םירוגמ", some "רויד", some "100", some "50", some "10"],
   [some "רחסמ", some "תויונח", some "200", some "80", some "15"]]

def brGood : BPdf :=
  BPdf.pages [⟨.ok (some "טבלת זכויות מצב מוצע"), .ok [brGoodTable]⟩]

/-! ## `_reverse_hebrew` (identical in both modules)

`re.split(r"(\d[\d,./\-]*\d|\d)", text)` splits `text` at the numeric
runs, keeping the runs (the capture group) in the output list.  At a
digit the regex matches the digit itself followed by the longest prefix
of the run of `[\d,./\-]` characters that still ends in a digit
(greedy star with backtracking into the final `\d`), or the single digit
when no such prefix exists. -/

theorem takeWhile_length_le (p : Char → Bool) (l : List Char) :
    (l.takeWhile p).length ≤ l.length := by
  induction l with
  | nil => simp
  | cons c rest ih =>
    simp only [List.takeWhile]
    cases p c <;> simp <;> omega

theorem dropWhile_length_le (p : Char → Bool) (l : List Char) :
    (l.dropWhile p).length ≤ l.length := by
  induction l with
  | nil => simp
  | cons c rest ih =>
    simp only [List.dropWhile]
    cases p c <;> simp <;> omega

theorem splitRest_length_le (rest : List Char) :
    (splitRest rest).length ≤ rest.length := by
  unfold splitRest
  have h2 : ((rest.takeWhile isSepCh).drop (matchLen (rest.takeWhile isSepCh))).length
      ≤ (rest.takeWhile isSepCh).length := by
    simp [List.length_drop]
  have h4 : (rest.takeWhile isSepCh).length + (rest.dropWhile isSepCh).length
      = rest.length := by
    rw [← List.length_append, rest.takeWhile_append_dropWhile]
  simp only [List.length_append]
  omega

theorem pySplitNumF_congr :
    ∀ f1 f2 (l : List Char), l.length ≤ f1 → l.length ≤ f2 →
      pySplitNumF f1 l = pySplitNumF f2 l := by
  intro f1
  induction f1 with
  | zero =>
    intro f2 l h1 h2
    have : l = [] := List.length_eq_zero.mp (Nat.le_zero.mp h1)
    subst this
    cases f2 <;> rfl
  | succ f1 ih =>
    intro f2 l h1 h2
    cases l with
    | nil => cases f2 <;> rfl
    | cons c rest =>
      cases f2 with
      | zero => simp at h2
      | succ f2 =>
        simp only [List.length_cons, Nat.succ_le_succ_iff] at h1 h2
        simp only [pySplitNumF]
        have hr : (splitRest rest).length ≤ f1 :=
          le_trans (splitRest_length_le rest) h1
        have hr2 : (splitRest rest).length ≤ f2 :=
          le_trans (splitRest_length_le rest) h2
        rw [ih f2 (splitRest rest) hr hr2, ih f2 rest h1 h2]

theorem capturedSegsF_congr :
    ∀ f1 f2 (l : List Char), l.length ≤ f1 → l.length ≤ f2 →
      capturedSegsF f1 l = capturedSegsF f2 l := by
  intro f1
  induction f1 with
  | zero =>
    intro f2 l h1 h2
    have : l = [] := List.length_eq_zero.mp (Nat.le_zero.mp h1)
    subst this
    cases f2 <;> rfl
  | succ f1 ih =>
    intro f2 l h1 h2
    cases l with
    | nil => cases f2 <;> rfl
    | cons c rest =>
      cases f2 with
      | zero => simp at h2
      | succ f2 =>
        simp only [List.length_cons, Nat.succ_le_succ_iff] at h1 h2
        simp only [capturedSegsF]
        have hr : (splitRest rest).length ≤ f1 :=
          le_trans (splitRest_length_le rest) h1
        have hr2 : (splitRest rest).length ≤ f2 :=
          le_trans (splitRest_length_le rest) h2
        rw [ih f2 (splitRest rest) hr hr2, ih f2 rest h1 h2]

/-- The defining one-step equation of the split on a cons cell. -/
theorem pySplitNum_cons_eq (c : Char) (rest : List Char) :
    pySplitNum (c :: rest) =
      if c.isDigit then
        [] :: (c :: (rest.takeWhile isSepCh).take (matchLen (rest.takeWhile isSepCh)))
          :: pySplitNum (splitRest rest)
      else
        match pySplitNum rest with
        | [] => [[c]]
        | s :: ss => (c :: s) :: ss := by
  show pySplitNumF (rest.length + 1) (c :: rest) = _
  simp only [pySplitNumF]
  rw [pySplitNumF_congr rest.length (splitRest rest).length (splitRest rest)
    (splitRest_length_le rest) le_rfl]
  rfl

/-- The defining one-step equation of the captured-run list. -/
theorem capturedSegs_cons_eq (c : Char) (rest : List Char) :
    capturedSegs (c :: rest) =
      if c.isDigit then
        (c :: (rest.takeWhile isSepCh).take (matchLen (rest.takeWhile isSepCh)))
          :: capturedSegs (splitRest rest)
      else
        capturedSegs rest := by
  show capturedSegsF (rest.length + 1) (c :: rest) = _
  simp only [capturedSegsF]
  rw [capturedSegsF_congr rest.length (splitRest rest).length (splitRest rest)
    (splitRest_length_le rest) le_rfl]
  rfl

theorem footnoteHead_length {l r : List Char} (h : footnoteHead l = some r) :
    r.length < l.length := by
  unfold footnoteHead at h
  split at h
  · rename_i c t
    split at h
    · split at h
      · exact absurd h (by simp)
      · split at h
        · rename_i c2 r2 hm
          have hd : (t.drop (t.takeWhile isDigitCh).length).length ≤ t.length := by
            simp [List.length_drop]
          rw [hm] at hd
          split at h
          · simp only [Option.some.injEq] at h
            subst h
            simp only [List.length_cons] at hd ⊢
            omega
          · exact absurd h (by simp)
        · exact absurd h (by simp)
    · exact absurd h (by simp)
  · exact absurd h (by simp)

theorem stripFootnotePreF_congr :
    ∀ f1 f2 (l : List Char), l.length ≤ f1 → l.length ≤ f2 →
      stripFootnotePreF f1 l = stripFootnotePreF f2 l := by
  intro f1
  induction f1 with
  | zero =>
    intro f2 l h1 h2
    have : l = [] := List.length_eq_zero.mp (Nat.le_zero.mp h1)
    subst this
    cases f2 <;> rfl
  | succ f1 ih =>
    intro f2 l h1 h2
    cases l with
    | nil => cases f2 <;> rfl
    | cons c rest =>
      cases f2 with
      | zero => simp at h2
      | succ f2 =>
        simp only [List.length_cons, Nat.succ_le_succ_iff] at h1 h2
        simp only [stripFootnotePreF]
        cases hf : footnoteHead (c :: rest) with
        | some r =>
          have hr := footnoteHead_length hf
          simp only [List.length_cons] at hr
          have hb : (r.dropWhile isWsCh).length ≤ rest.length :=
            le_trans (dropWhile_length_le _ r) (by omega)
          dsimp only
          rw [ih f2 (r.dropWhile isWsCh) (le_trans hb h1) (le_trans hb h2)]
        | none =>
          dsimp only
          rw [ih f2 rest h1 h2]

theorem stripFootnotePre_cons_eq (c : Char) (rest : List Char) :
    stripFootnotePre (c :: rest) =
      match footnoteHead (c :: rest) with
      | some r => stripFootnotePre (r.dropWhile isWsCh)
      | none => c :: stripFootnotePre rest := by
  show stripFootnotePreF (rest.length + 1) (c :: rest) = _
  simp only [stripFootnotePreF]
  cases hf : footnoteHead (c :: rest) with
  | some r =>
    have hr := footnoteHead_length hf
    simp only [List.length_cons] at hr
    have hb : (r.dropWhile isWsCh).length ≤ rest.length :=
      le_trans (dropWhile_length_le _ r) (by omega)
    dsimp only
    rw [stripFootnotePreF_congr rest.length (r.dropWhile isWsCh).length
      (r.dropWhile isWsCh) hb le_rfl]
    rfl
  | none => rfl

theorem stripFootnoteSufF_congr :
    ∀ f1 f2 (l : List Char), l.length ≤ f1 → l.length ≤ f2 →
      stripFootnoteSufF f1 l = stripFootnoteSufF f2 l := by
  intro f1
  induction f1 with
  | zero =>
    intro f2 l h1 h2
    have : l = [] := List.length_eq_zero.mp (Nat.le_zero.mp h1)
    subst this
    cases f2 <;> rfl
  | succ f1 ih =>
    intro f2 l h1 h2
    cases l with
    | nil => cases f2 <;> rfl
    | cons c rest =>
      cases f2 with
      | zero => simp at h2
      | succ f2 =>
        simp only [List.length_cons, Nat.succ_le_succ_iff] at h1 h2
        simp only [stripFootnoteSufF]
        cases hf : footnoteHead ((c :: rest).dropWhile isWsCh) with
        | some r =>
          have hr := footnoteHead_length hf
          have hd : ((c :: rest).dropWhile isWsCh).length ≤ rest.length + 1 := by
            have := dropWhile_length_le isWsCh (c :: rest)
            simpa using this
          have hb : r.length ≤ rest.length := by omega
          dsimp only
          rw [ih f2 r (le_trans hb h1) (le_trans hb h2)]
        | none =>
          dsimp only
          rw [ih f2 rest h1 h2]

theorem stripFootnoteSuf_cons_eq (c : Char) (rest : List Char) :
    stripFootnoteSuf (c :: rest) =
      match footnoteHead ((c :: rest).dropWhile isWsCh) with
      | some r => stripFootnoteSuf r
      | none => c :: stripFootnoteSuf rest := by
  show stripFootnoteSufF (rest.length + 1) (c :: rest) = _
  simp only [stripFootnoteSufF]
  cases hf : footnoteHead ((c :: rest).dropWhile isWsCh) with
  | some r =>
    have hr := footnoteHead_length hf
    have hd : ((c :: rest).dropWhile isWsCh).length ≤ rest.length + 1 := by
      have := dropWhile_length_le isWsCh (c :: rest)
      simpa using this
    have hb : r.length ≤ rest.length := by omega
    dsimp only
    rw [stripFootnoteSufF_congr rest.length r.length r hb le_rfl]
    rfl
  | none => rfl

theorem normSlashF_congr :
    ∀ f1 f2 (l : List Char), l.length ≤ f1 → l.length ≤ f2 →
      normSlashF f1 l = normSlashF f2 l := by
  intro f1
  induction f1 with
  | zero =>
    intro f2 l h1 h2
    have : l = [] := List.length_eq_zero.mp (Nat.le_zero.mp h1)
    subst this
    cases f2 <;> rfl
  | succ f1 ih =>
    intro f2 l h1 h2
    cases l with
    | nil => cases f2 <;> rfl
    | cons c rest =>
      cases f2 with
      | zero => simp at h2
      | succ f2 =>
        simp only [List.length_cons, Nat.succ_le_succ_iff] at h1 h2
        simp only [normSlashF]
        have hd : ((c :: rest).dropWhile isWsCh).length ≤ rest.length + 1 := by
          have := dropWhile_length_le isWsCh (c :: rest)
          simpa using this
        cases hf : (c :: rest).dropWhile isWsCh with
        | nil => rw [ih f2 rest h1 h2]
        | cons d r2 =>
          rw [hf] at hd
          simp only [List.length_cons] at hd
          dsimp only
          by_cases hsl : d = '/'
          · subst hsl
            have hb : (r2.dropWhile isWsCh).length ≤ rest.length :=
              le_trans (dropWhile_length_le _ r2) (by omega)
            rw [ih f2 (r2.dropWhile isWsCh) (le_trans hb h1) (le_trans hb h2),
              ih f2 rest h1 h2]
          · simp only [if_neg hsl]
            rw [ih f2 rest h1 h2]

theorem normSlash_cons_eq (c : Char) (rest : List Char) :
    normSlash (c :: rest) =
      match (c :: rest).dropWhile isWsCh with
      | d :: r2 =>
        if d = '/' then '/' :: normSlash (r2.dropWhile isWsCh)
        else c :: normSlash rest
      | [] => c :: normSlash rest := by
  show normSlashF (rest.length + 1) (c :: rest) = _
  simp only [normSlashF]
  have hd : ((c :: rest).dropWhile isWsCh).length ≤ rest.length + 1 := by
    have := dropWhile_length_le isWsCh (c :: rest)
    simpa using this
  cases hf : (c :: rest).dropWhile isWsCh with
  | nil => rfl
  | cons d r2 =>
    rw [hf] at hd
    simp only [List.length_cons] at hd
    dsimp only
    by_cases hsl : d = '/'
    · subst hsl
      have hb : (r2.dropWhile isWsCh).length ≤ rest.length :=
        le_trans (dropWhile_length_le _ r2) (by omega)
      rw [normSlashF_congr rest.length (r2.dropWhile isWsCh).length
        (r2.dropWhile isWsCh) hb le_rfl]
      rfl
    · simp only [if_neg hsl]
      rfl

theorem collapseNl_drop_lt {c : Char} {rest : List Char}
    (h : ((c :: rest).takeWhile isWsCh).contains '\n' = true) :
    ((c :: rest).dropWhile isWsCh).length ≤ rest.length := by
  have hne : isWsCh c = true := by
    by_contra hc
    simp only [Bool.not_eq_true] at hc
    simp only [List.takeWhile, hc, List.contains, List.elem] at h
    exact Bool.noConfusion h
  simp only [List.dropWhile, hne]
  exact dropWhile_length_le isWsCh rest

theorem collapseNlF_congr (rep : List Char) :
    ∀ f1 f2 (l : List Char), l.length ≤ f1 → l.length ≤ f2 →
      collapseNlF rep f1 l = collapseNlF rep f2 l := by
  intro f1
  induction f1 with
  | zero =>
    intro f2 l h1 h2
    have : l = [] := List.length_eq_zero.mp (Nat.le_zero.mp h1)
    subst this
    cases f2 <;> rfl
  | succ f1 ih =>
    intro f2 l h1 h2
    cases l with
    | nil => cases f2 <;> rfl
    | cons c rest =>
      cases f2 with
      | zero => simp at h2
      | succ f2 =>
        simp only [List.length_cons, Nat.succ_le_succ_iff] at h1 h2
        simp only [collapseNlF]
        by_cases hnl : ((c :: rest).takeWhile isWsCh).contains '\n' = true
        · simp only [if_pos hnl]
          have hb := collapseNl_drop_lt hnl
          rw [ih f2 ((c :: rest).dropWhile isWsCh) (le_trans hb h1) (le_trans hb h2)]
        · simp only [if_neg hnl]
          rw [ih f2 rest h1 h2]

theorem collapseNl_cons_eq (rep : List Char) (c : Char) (rest : List Char) :
    collapseNl rep (c :: rest) =
      if ((c :: rest).takeWhile isWsCh).contains '\n' then
        rep ++ collapseNl rep ((c :: rest).dropWhile isWsCh)
      else
        c :: collapseNl rep rest := by
  show collapseNlF rep (rest.length + 1) (c :: rest) = _
  simp only [collapseNlF]
  by_cases hnl : ((c :: rest).takeWhile isWsCh).contains '\n' = true
  · simp only [if_pos hnl]
    have hb := collapseNl_drop_lt hnl
    rw [collapseNlF_congr rep rest.length ((c :: rest).dropWhile isWsCh).length
      ((c :: rest).dropWhile isWsCh) hb le_rfl]
    rfl
  · simp only [if_neg hnl]
    rfl

/-! ## Properties of the numeric-run split -/

theorem dropWhile_eq_drop_len (p : Char → Bool) (l : List Char) :
    l.dropWhile p = l.drop (l.takeWhile p).length := by
  induction l with
  | nil => simp
  | cons c rest ih =>
    simp only [List.dropWhile, List.takeWhile]
    cases p c
    · simp
    · simpa using ih

/-- The kept star prefix is the run up to (and including) its last
digit, described from the right end. -/
theorem take_matchLen (t : List Char) :
    t.take (matchLen t) = (t.reverse.dropWhile (fun c => !c.isDigit)).reverse := by
  have hj : (t.reverse.takeWhile (fun c => !c.isDigit)).length ≤ t.length := by
    have := takeWhile_length_le (fun c => !c.isDigit) t.reverse
    simpa using this
  have h1 : (t.take (matchLen t)).reverse
      = t.reverse.drop (t.reverse.takeWhile (fun c => !c.isDigit)).length := by
    rw [List.reverse_take]
    unfold matchLen
    congr 1
    omega
  rw [← dropWhile_eq_drop_len] at h1
  calc t.take (matchLen t) = (t.take (matchLen t)).reverse.reverse := by simp
    _ = _ := by rw [h1]

/-- A captured segment `digit :: star-prefix` passes the source's
numeric-segment test. -/
theorem isNumericSeg_match (c : Char) (hc : c.isDigit = true) (t : List Char)
    (ht : ∀ x ∈ t, isSepCh x = true) :
    isNumericSeg (c :: t.take (matchLen t)) = true := by
  rw [take_matchLen]
  by_cases hnil : t.reverse.dropWhile (fun c => !c.isDigit) = []
  · simp [hnil, isNumericSeg, hc]
  · have hhead := List.head_dropWhile_not (fun c => !c.isDigit) t.reverse hnil
    simp only [Bool.not_eq_false'] at hhead
    set d := t.reverse.dropWhile (fun c => !c.isDigit) with hd
    have hrevne : d.reverse ≠ [] := by
      simpa using hnil
    have hmem : ∀ x ∈ d, isSepCh x = true := by
      intro x hx
      exact ht x (List.mem_reverse.mp ((List.dropWhile_sublist _).mem hx))
    simp only [isNumericSeg]
    rw [if_neg (by simpa using hrevne)]
    have h1 : (d.reverse).dropLast.all isSepCh = true := by
      rw [List.all_eq_true]
      intro x hx
      exact hmem x (List.mem_reverse.mp ((List.dropLast_sublist (d.reverse)).mem hx))
    have h2 : (d.reverse).getLast? = some (d.head hnil) := by
      rw [List.getLast?_reverse]
      exact List.head?_eq_head hnil
    rw [h1, h2, hc]
    simpa using hhead

/-- Every captured segment of the split passes the numeric-segment
test (so `_reverse_hebrew` keeps it unreversed). -/
theorem capturedSegs_numeric_aux :
    ∀ n (l : List Char), l.length ≤ n →
      ∀ seg ∈ capturedSegs l, isNumericSeg seg = true := by
  intro n
  induction n with
  | zero =>
    intro l hl seg hmem
    have : l = [] := List.length_eq_zero.mp (Nat.le_zero.mp hl)
    subst this
    exact absurd hmem (by simp [capturedSegs, capturedSegsF])
  | succ n ih =>
    intro l hl seg hmem
    cases l with
    | nil => exact absurd hmem (by simp [capturedSegs, capturedSegsF])
    | cons c rest =>
      simp only [List.length_cons, Nat.succ_le_succ_iff] at hl
      rw [capturedSegs_cons_eq] at hmem
      by_cases hc : c.isDigit = true
      · rw [if_pos hc] at hmem
        rcases List.mem_cons.mp hmem with h | h
        · subst h
          exact isNumericSeg_match c hc _ (fun x hx => List.mem_takeWhile_imp hx)
        · exact ih (splitRest rest) (le_trans (splitRest_length_le rest) hl) seg h
      · rw [if_neg hc] at hmem
        exact ih rest hl seg hmem

theorem capturedSegs_numeric (l : List Char) :
    ∀ seg ∈ capturedSegs l, isNumericSeg seg = true :=
  capturedSegs_numeric_aux l.length l le_rfl

/-- The split list is nonempty and its head (the text before the first
numeric run) is digit-free. -/
theorem pySplitNum_cons_aux :
    ∀ n (l : List Char), l.length ≤ n →
      ∃ h tl, pySplitNum l = h :: tl ∧ ∀ c ∈ h, c.isDigit = false := by
  intro n
  induction n with
  | zero =>
    intro l hl
    have : l = [] := List.length_eq_zero.mp (Nat.le_zero.mp hl)
    subst this
    exact ⟨[], [], rfl, by simp⟩
  | succ n ih =>
    intro l hl
    cases l with
    | nil => exact ⟨[], [], rfl, by simp⟩
    | cons c rest =>
      simp only [List.length_cons, Nat.succ_le_succ_iff] at hl
      by_cases hc : c.isDigit = true
      · refine ⟨[],
          (c :: (rest.takeWhile isSepCh).take (matchLen (rest.takeWhile isSepCh)))
            :: pySplitNum (splitRest rest), ?_, by simp⟩
        rw [pySplitNum_cons_eq, if_pos hc]
      · rcases ih rest hl with ⟨h, tl, heq, hfree⟩
        refine ⟨c :: h, tl, ?_, ?_⟩
        · rw [pySplitNum_cons_eq, if_neg hc, heq]
        · intro x hx
          rcases List.mem_cons.mp hx with h1 | h1
          · subst h1
            simpa using hc
          · exact hfree x h1

theorem pySplitNum_cons (l : List Char) :
    ∃ h tl, pySplitNum l = h :: tl ∧ ∀ c ∈ h, c.isDigit = false :=
  pySplitNum_cons_aux l.length l le_rfl

/-- A numeric segment is nonempty and starts with a digit. -/
theorem isNumericSeg_head {seg : List Char} (h : isNumericSeg seg = true) :
    ∃ c cs, seg = c :: cs ∧ c.isDigit = true := by
  match seg, h with
  | c :: cs, h =>
    refine ⟨c, cs, rfl, ?_⟩
    simp only [isNumericSeg] at h
    by_cases he : cs.isEmpty
    · rwa [if_pos he] at h
    · rw [if_neg he] at h
      exact (Bool.and_eq_true_iff.mp (Bool.and_eq_true_iff.mp h).1).1

/-- Every captured segment occurs as an element of the full split. -/
theorem capturedSegs_mem_split_aux :
    ∀ n (l : List Char), l.length ≤ n →
      ∀ seg ∈ capturedSegs l, seg ∈ pySplitNum l := by
  intro n
  induction n with
  | zero =>
    intro l hl seg hmem
    have : l = [] := List.length_eq_zero.mp (Nat.le_zero.mp hl)
    subst this
    exact absurd hmem (by simp [capturedSegs, capturedSegsF])
  | succ n ih =>
    intro l hl seg hmem
    cases l with
    | nil => exact absurd hmem (by simp [capturedSegs, capturedSegsF])
    | cons c rest =>
      simp only [List.length_cons, Nat.succ_le_succ_iff] at hl
      rw [capturedSegs_cons_eq] at hmem
      rw [pySplitNum_cons_eq]
      by_cases hc : c.isDigit = true
      · rw [if_pos hc] at hmem
        rw [if_pos hc]
        rcases List.mem_cons.mp hmem with h | h
        · subst h
          exact List.mem_cons_of_mem _ (List.mem_cons_self _ _)
        · exact List.mem_cons_of_mem _ (List.mem_cons_of_mem _
            (ih (splitRest rest) (le_trans (splitRest_length_le rest) hl) seg h))
      · rw [if_neg hc] at hmem
        rw [if_neg hc]
        have hnum := capturedSegs_numeric rest seg hmem
        have hmem2 := ih rest hl seg hmem
        rcases pySplitNum_cons rest with ⟨h, tl, heq, hfree⟩
        rw [heq]
        rw [heq] at hmem2
        rcases List.mem_cons.mp hmem2 with h1 | h1
        · exfalso
          rcases isNumericSeg_head hnum with ⟨c0, cs, rfl, hdig⟩
          have := hfree c0 (by rw [← h1]; exact List.mem_cons_self _ _)
          rw [hdig] at this
          exact Bool.noConfusion this
        · exact List.mem_cons_of_mem _ h1

theorem capturedSegs_mem_split (l : List Char) :
    ∀ seg ∈ capturedSegs l, seg ∈ pySplitNum l :=
  capturedSegs_mem_split_aux l.length l le_rfl

/-- Digit-free strings split into a single segment. -/
theorem pySplitNum_noDigit {l : List Char} (h : ∀ c ∈ l, c.isDigit = false) :
    pySplitNum l = [l] := by
  induction l with
  | nil => rfl
  | cons c rest ih =>
    have hc : c.isDigit = false := h c (List.mem_cons_self _ _)
    rw [pySplitNum_cons_eq]
    simp only [hc, Bool.false_eq_true, if_false]
    rw [ih (fun x hx => h x (List.mem_cons_of_mem _ hx))]

/-- Digit-free segments fail the numeric test. -/
theorem isNumericSeg_noDigit {l : List Char} (h : ∀ c ∈ l, c.isDigit = false) :
    isNumericSeg l = false := by
  cases l with
  | nil => rfl
  | cons c rest =>
    have hc : c.isDigit = false := h c (List.mem_cons_self _ _)
    simp [isNumericSeg, hc]

/-- On digit-free input, `_reverse_hebrew` is plain string reversal. -/
theorem reverseHebrewL_noDigit {l : List Char} (h : ∀ c ∈ l, c.isDigit = false) :
    reverseHebrewL l = l.reverse := by
  unfold reverseHebrewL
  rw [pySplitNum_noDigit h]
  simp [applySeg, isNumericSeg_noDigit h]

/-- An all-digit string splits as `["", s, ""]`. -/
theorem pySplitNum_allDigit {c : Char} {rest : List Char}
    (h : ∀ x ∈ c :: rest, x.isDigit = true) :
    pySplitNum (c :: rest) = [[], c :: rest, []] := by
  have hc : c.isDigit = true := h c (List.mem_cons_self _ _)
  have hrest : ∀ x ∈ rest, x.isDigit = true :=
    fun x hx => h x (List.mem_cons_of_mem _ hx)
  have hsep : ∀ x ∈ rest, isSepCh x = true := by
    intro x hx
    simp [isSepCh, hrest x hx]
  have htw : rest.takeWhile isSepCh = rest := List.takeWhile_eq_self_iff.mpr hsep
  have hdw : rest.dropWhile isSepCh = [] := by
    rw [dropWhile_eq_drop_len, htw, List.drop_length]
  have hml : matchLen rest = rest.length := by
    unfold matchLen
    have : rest.reverse.takeWhile (fun c => !c.isDigit) = [] := by
      cases hr : rest.reverse with
      | nil => rfl
      | cons y ys =>
        have hy : y ∈ rest := List.mem_reverse.mp (by rw [hr]; exact List.mem_cons_self _ _)
        rw [List.takeWhile_cons]
        simp [hrest y hy]
    rw [this]
    simp
  have hsr : splitRest rest = [] := by
    unfold splitRest
    rw [htw, hml, List.drop_length, hdw]
    rfl
  rw [pySplitNum_cons_eq]
  simp only [if_pos hc, htw, hml, List.take_length, hsr]
  rfl

/-- An all-digit string passes the numeric-segment test. -/
theorem isNumericSeg_allDigit {l : List Char} (hne : l ≠ [])
    (h : ∀ x ∈ l, x.isDigit = true) : isNumericSeg l = true := by
  cases l with
  | nil => exact absurd rfl hne
  | cons c rest =>
    have hc : c.isDigit = true := h c (List.mem_cons_self _ _)
    by_cases he : rest.isEmpty
    · simp [isNumericSeg, he, hc]
    · have hrne : rest ≠ [] := by simpa using he
      simp only [isNumericSeg, he, if_false]
      have h1 : rest.dropLast.all isSepCh = true := by
        rw [List.all_eq_true]
        intro x hx
        have : x ∈ rest := (List.dropLast_sublist rest).mem hx
        simp [isSepCh, h x (List.mem_cons_of_mem _ this)]
      have h2 : rest.getLast? = some (rest.getLast hrne) := List.getLast?_eq_getLast _ hrne
      rw [h1, h2, hc]
      simpa using h (rest.getLast hrne) (List.mem_cons_of_mem _ (List.getLast_mem hrne))

theorem hebrew_not_digit {c : Char} (h : isHebrewLetter c = true) :
    c.isDigit = false := by
  simp only [isHebrewLetter, Bool.and_eq_true_iff, decide_eq_true_eq] at h
  by_contra hcon
  simp only [Bool.not_eq_false, Char.isDigit, Bool.and_eq_true_iff,
    decide_eq_true_eq] at hcon
  have h2 : c.val.toNat ≤ (57 : UInt32).toNat := hcon.2
  have h3 : (57 : UInt32).toNat = 57 := by decide
  have h4 : (1488 : Nat) ≤ c.toNat := h.1
  simp only [Char.toNat] at h4
  omega

/-- The claim C8: `reverse_hebrew` is an involution on strings composed
only of Hebrew letters (no digits). -/
theorem c8_reverse_hebrew_involution (s : String)
    (h : s.data.all isHebrewLetter = true) :
    reverseHebrew (reverseHebrew s) = s := by
  have hfree : ∀ c ∈ s.data, c.isDigit = false := by
    intro c hc
    exact hebrew_not_digit (List.all_eq_true.mp h c hc)
  have hfree2 : ∀ c ∈ s.data.reverse, c.isDigit = false := by
    intro c hc
    exact hfree c (List.mem_reverse.mp hc)
  cases s with
  | mk data =>
    simp only [reverseHebrew, reverseHebrewL_noDigit hfree]
    simp only [reverseHebrewL_noDigit hfree2, List.reverse_reverse]

/-- Witness for C8 at a concrete Hebrew string. -/
theorem c8_reverse_hebrew_involution_witness :
    reverseHebrew (reverseHebrew "שלום") = "שלום" :=
  c8_reverse_hebrew_involution "שלום" (by decide)

/-- The claim C9: every numeric run captured by the split pattern occurs
verbatim (not reversed) as a substring of the output; an all-digit
string is returned unchanged; the empty string maps to itself. -/
theorem c9_numeric_tokens_verbatim :
    (∀ s : String, ∀ seg ∈ capturedSegs s.data, seg <:+: (reverseHebrew s).data)
    ∧ (∀ s : String, s ≠ "" → s.data.all isDigitCh = true → reverseHebrew s = s)
    ∧ reverseHebrew "" = "" := by
  refine ⟨?_, ?_, rfl⟩
  · intro s seg hmem
    have hnum := capturedSegs_numeric s.data seg hmem
    have hmem2 : seg ∈ pySplitNum s.data := capturedSegs_mem_split s.data seg hmem
    have hmem3 : seg ∈ (pySplitNum s.data).reverse := List.mem_reverse.mpr hmem2
    have hmem4 : applySeg seg ∈ ((pySplitNum s.data).reverse).map applySeg :=
      List.mem_map_of_mem applySeg hmem3
    rw [show applySeg seg = seg by simp [applySeg, hnum]] at hmem4
    exact List.infix_of_mem_flatten hmem4
  · intro s hne h
    cases s with
    | mk data =>
      cases data with
      | nil => exact absurd rfl hne
      | cons c rest =>
        have hdig : ∀ x ∈ c :: rest, x.isDigit = true := by
          intro x hx
          have := List.all_eq_true.mp h x hx
          simpa [isDigitCh] using this
        show String.mk (reverseHebrewL (c :: rest)) = String.mk (c :: rest)
        unfold reverseHebrewL
        rw [pySplitNum_allDigit hdig]
        have : isNumericSeg (c :: rest) = true :=
          isNumericSeg_allDigit (by simp) hdig
        simp [applySeg, this]

/-- Witness for C9: the captured run `12` of `אב12גד` survives verbatim,
and an all-digit string is fixed. -/
theorem c9_numeric_tokens_verbatim_witness :
    (['1', '2'] <:+: (reverseHebrew "אב12גד").data)
    ∧ reverseHebrew "123" = "123" := by
  constructor
  · exact c9_numeric_tokens_verbatim.1 "אב12גד" ['1', '2'] (by decide)
  · exact c9_numeric_tokens_verbatim.2.1 "123" (by decide) (by decide)

/-! ## Claim C1: the success invariant of `TenderPDFExtractor.extract` -/

/-- The claim C1: on every input — file missing, open failure, denylist
short-circuit, mid-scan exception, or a full scan — `extract` returns
`success == (len(plots) > 0 or taba is not None)`. -/
theorem c1_success_iff_data (maxPages : Nat) (H : TextHelpers) (pdf : TPdf) :
    (tExtract maxPages H pdf).success
      = (!(tExtract maxPages H pdf).plots.isEmpty
          || (tExtract maxPages H pdf).taba.isSome) := by
  cases pdf with
  | missing => rfl
  | openFail m => rfl
  | pages ps =>
    simp only [tExtract]
    cases tenderInner maxPages H ps with
    | ok r => rfl
    | error e =>
      cases e
      rfl

/-! ## Claim C7: the header-row classifier thresholds -/

/-- The claim C7: a row with zero non-empty cells is a header; a row
where at least 70 % of the non-empty cells are numeric after
footnote-stripping is data; a row where fewer than 30 % are numeric is a
header. -/
theorem c7_header_row_thresholds (row : List (Option String)) :
    ((nonEmptyCells row).isEmpty = true → isHeaderRow row = true)
    ∧ ((nonEmptyCells row).isEmpty = false →
        7 * (nonEmptyCells row).length ≤ 10 * numericCount row →
        isHeaderRow row = false)
    ∧ (10 * numericCount row < 3 * (nonEmptyCells row).length →
        isHeaderRow row = true) := by
  unfold isHeaderRow
  by_cases hrow : row.isEmpty
  · have hne : nonEmptyCells row = [] := by
      have : row = [] := by simpa using hrow
      subst this
      rfl
    refine ⟨fun _ => by simp [hrow], fun h _ => ?_, fun h => by simp [hrow]⟩
    rw [hne] at h
    exact absurd h (by simp)
  · simp only [hrow, if_false]
    by_cases hne : (nonEmptyCells row).isEmpty
    · refine ⟨fun _ => by simp [hne], fun h _ => absurd hne (by rw [h]; simp),
        fun h => ?_⟩
      have h0 : (nonEmptyCells row).length = 0 := by
        simpa [List.length_eq_zero] using hne
      rw [h0] at h
      omega
    · simp only [hne, if_false]
      have hlen : 1 ≤ (nonEmptyCells row).length := by
        rcases List.isEmpty_iff.not.mp (by simpa using hne) with h
        cases hx : nonEmptyCells row with
        | nil => exact absurd hx h
        | cons a b => simp [hx]
      refine ⟨fun h => absurd h (by simpa using hne), fun _ h => ?_, fun h => ?_⟩
      · have : ¬(10 * numericCount row < 3 * (nonEmptyCells row).length) := by omega
        simpa using this
      · simpa using h

/-- Witness for C7: a fully numeric row classifies as data and an empty
row as a header. -/
theorem c7_header_row_thresholds_witness :
    isHeaderRow [some "1", some "2", some "3"] = false
    ∧ isHeaderRow [none, some "  "] = true := by
  constructor
  · exact (c7_header_row_thresholds [some "1", some "2", some "3"]).2.1
      (by decide) (by decide)
  · exact (c7_header_row_thresholds [none, some "  "]).1 (by decide)

theorem plainDecimal_chars {v : List Char} (h : isPlainDecimal v = true) :
    ∀ c ∈ v, c.isDigit = true ∨ c = '.' := by
  intro c hc
  have hsplit : v.takeWhile isDigitCh ++ v.drop (v.takeWhile isDigitCh).length = v := by
    rw [← dropWhile_eq_drop_len, List.takeWhile_append_dropWhile]
  rw [← hsplit] at hc
  rcases List.mem_append.mp hc with h1 | h1
  · exact Or.inl (List.mem_takeWhile_imp h1)
  · unfold isPlainDecimal at h
    cases hd : v.drop (v.takeWhile isDigitCh).length with
    | nil =>
      rw [hd] at h1
      exact absurd h1 (by simp)
    | cons c2 r2 =>
      rw [hd] at h h1
      simp only [Bool.and_eq_true_iff, decide_eq_true_eq] at h
      rcases List.mem_cons.mp h1 with h2 | h2
      · exact Or.inr (h2.trans h.1.1)
      · exact Or.inl (List.all_eq_true.mp h.1.2 c h2)

theorem plainDecimal_ne_nil {v : List Char} (h : isPlainDecimal v = true) :
    v ≠ [] := by
  intro hv
  subst hv
  exact absurd h (by decide)

theorem digit_clean {c : Char} (h1 : c.isDigit = true) :
    isWsCh c = false ∧ c ≠ ',' ∧ c ≠ '(' ∧ c ≠ '-' ∧ c ≠ '+' := by
  simp only [Char.isDigit, Bool.and_eq_true_iff, decide_eq_true_eq] at h1
  have hlo : (48 : UInt32).toNat ≤ c.val.toNat := h1.1
  have hhi : c.val.toNat ≤ (57 : UInt32).toNat := h1.2
  refine ⟨?_, ?_, ?_, ?_, ?_⟩
  · by_contra hcon
    simp only [Bool.not_eq_false, isWsCh, Char.isWhitespace, Bool.or_eq_true,
      decide_eq_true_eq] at hcon
    rcases hcon with ((h | h) | h) | h <;>
      (subst h; exact absurd hlo (by decide))
  · intro hcon
    subst hcon
    exact absurd hlo (by decide)
  · intro hcon
    subst hcon
    exact absurd hlo (by decide)
  · intro hcon
    subst hcon
    exact absurd hlo (by decide)
  · intro hcon
    subst hcon
    exact absurd hlo (by decide)

/-- A plain decimal has no whitespace, commas or parentheses. -/
theorem plainDecimal_clean {v : List Char} (h : isPlainDecimal v = true) :
    ∀ c ∈ v, isWsCh c = false ∧ c ≠ ',' ∧ c ≠ '(' ∧ c ≠ '-' ∧ c ≠ '+' := by
  intro c hc
  rcases plainDecimal_chars h c hc with h1 | h1
  · exact digit_clean h1
  · subst h1
    refine ⟨by decide, by decide, by decide, by decide, by decide⟩

theorem dropWhile_cons_false {p : Char → Bool} {c : Char} (l : List Char)
    (h : p c = false) : (c :: l).dropWhile p = c :: l := by
  simp only [List.dropWhile, h]

theorem dropWhile_of_head_false {p : Char → Bool} {l : List Char}
    (h : ∀ c ∈ l, p c = false) : l.dropWhile p = l := by
  cases l with
  | nil => rfl
  | cons c rest =>
    simp only [List.dropWhile, h c (List.mem_cons_self _ _)]

theorem dropWhile_append_all {p : Char → Bool} {a : List Char} (b : List Char)
    (h : ∀ c ∈ a, p c = true) : (a ++ b).dropWhile p = b.dropWhile p := by
  induction a with
  | nil => rfl
  | cons c a ih =>
    simp only [List.cons_append, List.dropWhile, h c (List.mem_cons_self _ _)]
    exact ih (fun x hx => h x (List.mem_cons_of_mem _ hx))

/-- `str.strip()` of whitespace-padded clean text. -/
theorem pyStrip_sandwich {a v b : List Char}
    (ha : ∀ c ∈ a, isWsCh c = true) (hv : ∀ c ∈ v, isWsCh c = false)
    (hb : ∀ c ∈ b, isWsCh c = true) : pyStrip (a ++ v ++ b) = v := by
  unfold pyStrip
  rw [List.append_assoc, dropWhile_append_all (v ++ b) ha]
  cases v with
  | nil =>
    have h0 : (([] : List Char) ++ b).dropWhile isWsCh = [] := by
      rw [List.nil_append]
      exact List.dropWhile_eq_nil_iff.mpr (fun x hx => hb x hx)
    rw [h0]
    rfl
  | cons c v' =>
    have h1 : ((c :: v') ++ b).dropWhile isWsCh = (c :: v') ++ b := by
      rw [List.cons_append]
      exact dropWhile_cons_false _ (hv c (List.mem_cons_self _ _))
    rw [h1, List.reverse_append,
      dropWhile_append_all ((c :: v').reverse)
        (fun x hx => hb x (List.mem_reverse.mp hx)),
      dropWhile_of_head_false (fun x hx => hv x (List.mem_reverse.mp hx)),
      List.reverse_reverse]

/-- `pyStrip` fixes clean text. -/
theorem pyStrip_clean {v : List Char} (hv : ∀ c ∈ v, isWsCh c = false) :
    pyStrip v = v := by
  have := pyStrip_sandwich (a := []) (b := []) (by simp) hv (by simp)
  simpa using this

theorem footnoteHead_not_paren {c : Char} (r : List Char) (h : c ≠ '(') :
    footnoteHead (c :: r) = none := by
  unfold footnoteHead
  simp [h]

theorem takeWhile_all_stop {p : Char → Bool} {a : List Char} {b0 : Char}
    (b : List Char) (ha : ∀ c ∈ a, p c = true) (hb : p b0 = false) :
    (a ++ b0 :: b).takeWhile p = a := by
  induction a with
  | nil => simp [List.takeWhile, hb]
  | cons c a ih =>
    simp only [List.cons_append, List.takeWhile, ha c (List.mem_cons_self _ _)]
    exact congrArg (c :: ·) (ih (fun x hx => ha x (List.mem_cons_of_mem _ hx)))

theorem footnoteHead_paren {n : List Char} (rest : List Char) (hn : n ≠ [])
    (hd : n.all isDigitCh = true) :
    footnoteHead ('(' :: (n ++ ')' :: rest)) = some rest := by
  unfold footnoteHead
  have htw : (n ++ ')' :: rest).takeWhile isDigitCh = n :=
    takeWhile_all_stop rest (fun c hc => List.all_eq_true.mp hd c hc) (by decide)
  dsimp only
  rw [if_pos rfl, htw]
  rw [if_neg (by simpa using hn)]
  rw [List.drop_left]
  dsimp only
  rw [if_pos rfl]

theorem stripPre_append_noParen {a : List Char} (b : List Char)
    (h : ∀ c ∈ a, c ≠ '(') :
    stripFootnotePre (a ++ b) = a ++ stripFootnotePre b := by
  induction a with
  | nil => rfl
  | cons c a ih =>
    rw [List.cons_append, stripFootnotePre_cons_eq,
      footnoteHead_not_paren _ (h c (List.mem_cons_self _ _))]
    rw [ih (fun x hx => h x (List.mem_cons_of_mem _ hx))]
    rfl

theorem stripPre_noParen {a : List Char} (h : ∀ c ∈ a, c ≠ '(') :
    stripFootnotePre a = a := by
  have h2 := stripPre_append_noParen [] h
  rw [List.append_nil, show stripFootnotePre [] = [] from rfl,
    List.append_nil] at h2
  exact h2

theorem stripSuf_clean {l : List Char}
    (h : ∀ c ∈ l, isWsCh c = false ∧ c ≠ '(') :
    stripFootnoteSuf l = l := by
  induction l with
  | nil => rfl
  | cons c rest ih =>
    rw [stripFootnoteSuf_cons_eq]
    have hc := h c (List.mem_cons_self _ _)
    rw [dropWhile_of_head_false (fun x hx => (h x hx).1)]
    rw [footnoteHead_not_paren _ hc.2]
    rw [ih (fun x hx => h x (List.mem_cons_of_mem _ hx))]

/-- `float(v)` converges on every plain decimal. -/
theorem pyFloatCore_plain {v : List Char} (h : isPlainDecimal v = true) :
    (pyFloatCore v).isSome = true := by
  have hsplit : v.takeWhile isDigitCh ++ v.drop (v.takeWhile isDigitCh).length = v := by
    rw [← dropWhile_eq_drop_len, List.takeWhile_append_dropWhile]
  unfold isPlainDecimal at h
  unfold pyFloatCore
  cases hdrop : v.drop (v.takeWhile isDigitCh).length with
  | nil =>
    rw [hdrop] at h
    replace h : (!v.isEmpty) = true := h
    simp only [Bool.not_eq_true'] at h
    have htk : v.takeWhile isDigitCh = v := by
      rw [hdrop, List.append_nil] at hsplit
      exact hsplit
    show (if (v.takeWhile isDigitCh).isEmpty = true then none
      else some ((digitsToNat (v.takeWhile isDigitCh) : ℚ))).isSome = true
    rw [if_neg (by rw [htk]; simp [h])]
    rfl
  | cons c2 r2 =>
    rw [hdrop] at h
    replace h : (decide (c2 = '.') && r2.all isDigitCh
        && !((v.takeWhile isDigitCh).isEmpty && r2.isEmpty)) = true := h
    simp only [Bool.and_eq_true_iff, decide_eq_true_eq, Bool.not_eq_true',
      Bool.and_eq_false_iff] at h
    obtain ⟨⟨hc2, hr2⟩, hne⟩ := h
    show (if c2 = '.' then
        if (r2.drop (r2.takeWhile isDigitCh).length).isEmpty = false then none
        else if ((v.takeWhile isDigitCh).isEmpty && r2.isEmpty) = true then none
        else some ((digitsToNat (v.takeWhile isDigitCh) : ℚ)
          + (digitsToNat (r2.takeWhile isDigitCh) : ℚ)
              / (10 : ℚ) ^ (r2.takeWhile isDigitCh).length)
      else none).isSome = true
    rw [if_pos hc2]
    have htk2 : r2.takeWhile isDigitCh = r2 :=
      List.takeWhile_eq_self_iff.mpr (fun x hx => List.all_eq_true.mp hr2 x hx)
    rw [htk2, List.drop_length]
    rw [if_neg (by simp)]
    rw [if_neg (by
      simp only [Bool.and_eq_true_iff, not_and]
      intro h1 h2
      rcases hne with h3 | h3
      · rw [h1] at h3; exact Bool.noConfusion h3
      · rw [h2] at h3; exact Bool.noConfusion h3)]
    rfl

theorem pyFloat_plain {v : List Char} (h : isPlainDecimal v = true) :
    pyFloat v = pyFloatCore v ∧ (pyFloat v).isSome = true := by
  have hclean := plainDecimal_clean h
  have heq : pyFloat v = pyFloatCore v := by
    unfold pyFloat
    rw [pyStrip_clean (fun c hc => (hclean c hc).1)]
    cases hv : v with
    | nil => exact absurd (hv ▸ h) (by decide)
    | cons c0 r0 =>
      have hc0 := hclean c0 (hv ▸ List.mem_cons_self _ _)
      show (if c0 = '-' then (pyFloatCore r0).map (fun q => -q)
        else if c0 = '+' then pyFloatCore r0
        else pyFloatCore (c0 :: r0)) = pyFloatCore (c0 :: r0)
      rw [if_neg hc0.2.2.2.1, if_neg hc0.2.2.2.2]
  exact ⟨heq, heq ▸ pyFloatCore_plain h⟩

theorem dropWhile_ws_clean {v : List Char} (hv : ∀ c ∈ v, isWsCh c = false) :
    v.dropWhile isWsCh = v := by
  cases v with
  | nil => rfl
  | cons c rest => exact dropWhile_cons_false _ (hv c (List.mem_cons_self _ _))

/-- `re.sub(r"\(\d+\)\s*", "", f"({n}) {v}") == v` for clean `v`. -/
theorem stripPre_prefix_footnote {n v : List Char} (hn : n ≠ [])
    (hd : n.all isDigitCh = true) (hv : ∀ c ∈ v, isWsCh c = false ∧ c ≠ '(') :
    stripFootnotePre ('(' :: (n ++ ')' :: ' ' :: v)) = v := by
  rw [stripFootnotePre_cons_eq, footnoteHead_paren (' ' :: v) hn hd]
  dsimp only
  have h1 : (' ' :: v).dropWhile isWsCh = v := by
    rw [List.dropWhile_cons_of_pos (by decide)]
    exact dropWhile_ws_clean (fun c hc => (hv c hc).1)
  rw [h1]
  exact stripPre_noParen (fun c hc => (hv c hc).2)

/-- `re.sub(r"\(\d+\)\s*", "", f"{v} ({n})") == v + " "` for clean `v`. -/
theorem stripPre_suffix_footnote {n v : List Char} (hn : n ≠ [])
    (hd : n.all isDigitCh = true) (hv : ∀ c ∈ v, c ≠ '(') :
    stripFootnotePre (v ++ ' ' :: '(' :: (n ++ [')'])) = v ++ [' '] := by
  rw [stripPre_append_noParen _ hv]
  rw [stripFootnotePre_cons_eq, footnoteHead_not_paren _ (by decide)]
  dsimp only
  rw [stripFootnotePre_cons_eq,
    show ('(' :: (n ++ [')'])) = '(' :: (n ++ ')' :: []) from rfl,
    footnoteHead_paren [] hn hd]
  rfl

/-- The common tail of the `_parse_numeric` computation once the
footnote stripping has produced exactly the clean decimal `v`. -/
theorem parseNumeric_of_clean {v : List Char} (h : isPlainDecimal v = true) :
    (if v.isEmpty then none
     else
       let c2 := pyStrip (stripFootnoteSuf (pyStrip v))
       if c2.isEmpty then none else pyFloat (c2.filter (· ≠ ','))) = pyFloat v := by
  have hclean := plainDecimal_clean h
  have hne : v ≠ [] := plainDecimal_ne_nil h
  have hstrip : pyStrip v = v := pyStrip_clean (fun c hc => (hclean c hc).1)
  have hsuf : stripFootnoteSuf v = v :=
    stripSuf_clean (fun c hc => ⟨(hclean c hc).1, (hclean c hc).2.2.1⟩)
  have hfil : v.filter (· ≠ ',') = v :=
    List.filter_eq_self.mpr (fun c hc => by
      simpa using (hclean c hc).2.1)
  rw [if_neg (by simpa using hne)]
  simp only [hstrip, hsuf]
  rw [if_neg (by simpa using hne), hfil]

/-- The claim C6: the footnote round-trip of `_parse_numeric` — for a
digit string `n` and a plain decimal `v`, `"(n) v"` and `"v (n)"` parse
to `float(v)` (which converges), `"(n)"` alone parses to `None` — and
the literal examples of the specification, including that `None`, the
empty string and unconvertible input give `None` without raising. -/
theorem c6_parse_numeric_footnote_roundtrip :
    (∀ n v : List Char, n ≠ [] → n.all isDigitCh = true →
      isPlainDecimal v = true →
      parseNumeric (some ⟨'(' :: (n ++ ')' :: ' ' :: v)⟩) = pyFloat v
      ∧ parseNumeric (some ⟨v ++ ' ' :: '(' :: (n ++ [')'])⟩) = pyFloat v
      ∧ (pyFloat v).isSome = true
      ∧ parseNumeric (some ⟨'(' :: (n ++ [')'])⟩) = none)
    ∧ parseNumeric (some "2961") = some 2961
    ∧ parseNumeric (some "(1) 260") = some 260
    ∧ parseNumeric (some "(4) 4") = some 4
    ∧ parseNumeric (some "(3)") = none
    ∧ parseNumeric (some "") = none
    ∧ parseNumeric (some "19,183") = some 19183
    ∧ parseNumeric none = none := by
  refine ⟨?_, by decide, by decide, by decide, by decide, by decide, by decide, rfl⟩
  intro n v hn hd hv
  have hclean := plainDecimal_clean hv
  refine ⟨?_, ?_, (pyFloat_plain hv).2, ?_⟩
  · show (if ('(' :: (n ++ ')' :: ' ' :: v)).isEmpty then none
      else
        let c2 := pyStrip (stripFootnoteSuf (pyStrip
          (stripFootnotePre ('(' :: (n ++ ')' :: ' ' :: v)))))
        if c2.isEmpty then none else pyFloat (c2.filter (· ≠ ','))) = pyFloat v
    rw [if_neg (by simp)]
    rw [stripPre_prefix_footnote hn hd
      (fun c hc => ⟨(hclean c hc).1, (hclean c hc).2.2.1⟩)]
    have := parseNumeric_of_clean hv
    rw [if_neg (by simpa using plainDecimal_ne_nil hv)] at this
    exact this
  · show (if (v ++ ' ' :: '(' :: (n ++ [')'])).isEmpty then none
      else
        let c2 := pyStrip (stripFootnoteSuf (pyStrip
          (stripFootnotePre (v ++ ' ' :: '(' :: (n ++ [')'])))))
        if c2.isEmpty then none else pyFloat (c2.filter (· ≠ ','))) = pyFloat v
    rw [if_neg (by simp)]
    rw [stripPre_suffix_footnote hn hd (fun c hc => (hclean c hc).2.2.1)]
    have hsand : pyStrip (v ++ [' ']) = v := by
      have := pyStrip_sandwich (a := []) (v := v) (b := [' '])
        (by simp) (fun c hc => (hclean c hc).1) (by decide)
      simpa using this
    rw [hsand]
    have := parseNumeric_of_clean hv
    rw [if_neg (by simpa using plainDecimal_ne_nil hv)] at this
    simp only [pyStrip_clean (fun c hc => (hclean c hc).1)] at this ⊢
    exact this
  · show (if ('(' :: (n ++ [')'])).isEmpty then none
      else
        let c2 := pyStrip (stripFootnoteSuf (pyStrip
          (stripFootnotePre ('(' :: (n ++ [')'])))))
        if c2.isEmpty then none else pyFloat (c2.filter (· ≠ ','))) = none
    rw [if_neg (by simp)]
    rw [show ('(' :: (n ++ [')'])) = '(' :: (n ++ ')' :: []) from rfl]
    rw [stripFootnotePre_cons_eq, footnoteHead_paren [] hn hd]
    dsimp only
    show (if (pyStrip (stripFootnoteSuf (pyStrip (stripFootnotePre [])))).isEmpty
      then none else _) = none
    rw [if_pos (by rfl)]

/-- Witness for C6 at `n = "1"`, `v = "260"`. -/
theorem c6_parse_numeric_footnote_roundtrip_witness :
    parseNumeric (some "(1) 260") = pyFloat "260".data
    ∧ parseNumeric (some "260 (1)") = pyFloat "260".data := by
  have h := c6_parse_numeric_footnote_roundtrip.1 ['1'] ['2', '6', '0']
    (by decide) (by decide) (by decide)
  exact ⟨h.1, h.2.1⟩

/-- C2 counterexample: a PDF-library exception (page 3 raises) is caught
and recorded, but the result keeps `success = True` because a plot table
had already been extracted — the failure does not degrade to
`success=False` as claimed. -/
theorem c2_counterexample_partial_success :
    (tExtract 15 noneHelpers pdfC2).success = true
    ∧ (tExtract 15 noneHelpers pdfC2).errors = [pdfFailMsg "boom"]
    ∧ (tExtract 15 noneHelpers pdfC2).plots ≠ [] := by decide

/-- C3 counterexample: the date-change announcement keyword is in
`ANNOUNCEMENT_KEYWORDS` and occurs on the first page, yet extraction
records no error and parses the table anyway — the constant is never
consulted by `_extract_with_pdfplumber`. -/
theorem c3_counterexample_announcement_ignored :
    "דחיית מועדים" ∈ ANNOUNCEMENT_KEYWORDS
    ∧ inStr "דחיית מועדים" "הודעה על דחיית מועדים" = true
    ∧ (tExtract 15 noneHelpers pdfC3).plots ≠ []
    ∧ (tExtract 15 noneHelpers pdfC3).errors = [] := by decide

/-- C3 amended: only the non-land keywords short-circuit.  When the
combined first-two-pages text matches a `NON_LAND_KEYWORDS` entry, the
extractor records exactly one error naming the first matched keyword and
returns immediately with no plots, no plan number and `success=False`
(no table-related work is reflected in the result). -/
theorem c3_amended_nonland_short_circuit (maxPages : Nat) (H : TextHelpers)
    (ps : List TPage) (ft kw : String)
    (hft : buildFirstText ps (min ps.length maxPages) = .ok ft)
    (hkw : NON_LAND_KEYWORDS.find? (fun k => inStr k ft) = some kw) :
    tExtract maxPages H (TPdf.pages ps) =
      { plots := [], taba := none, purpose := none, success := false,
        errors := [nonLandMsg kw] } := by
  unfold tExtract tenderInner
  dsimp only
  rw [hft]
  dsimp only
  rw [hkw]
  rfl

/-- Witness for the amended C3 at a quarrying-tender first page. -/
theorem c3_amended_nonland_short_circuit_witness :
    tExtract 15 noneHelpers
        (TPdf.pages [⟨.ok (some "מכרז עודפי חפירה"), .ok []⟩])
      = { plots := [], taba := none, purpose := none, success := false,
          errors := [nonLandMsg "עודפי חפירה"] } :=
  c3_amended_nonland_short_circuit 15 noneHelpers
    [⟨.ok (some "מכרז עודפי חפירה"), .ok []⟩]
    "מכרז עודפי חפירה\n" "עודפי חפירה" rfl (by decide)

/-- C4 counterexample: the weak-match table is accepted by the parser
(nonempty rows, score 0), but `extract` keeps a table only when its
score strictly exceeds the running best (initially 0), so the rows never
appear in the returned plots. -/
theorem c4_counterexample_weak_table_dropped :
    (parsePlotTable weakTable).1 ≠ []
    ∧ (parsePlotTable weakTable).2 = 0
    ∧ (tExtract 15 noneHelpers pdfC4).plots = [] := by decide

/-- C5 counterexample: the failure mode "Section-5 page found but no
table meeting the size threshold" and the failure mode "table found but
zero data rows parsed" record the identical error string, so the errors
list does not distinguish them. -/
theorem c5_counterexample_shared_error_string :
    (extractBR none "b" pdfC5b).errors = (extractBR none "c" pdfC5c).errors
    ∧ (extractBR none "b" pdfC5b).errors = [noRowsMsg]
    ∧ selectRightsTable [] = none
    ∧ (selectRightsTable [tableC5]).isSome = true
    ∧ (parseTable tableC5).1 = [] := by decide

/-- `brLoop` can only raise while `success` is still `False`: once a
section page yields rows the loop breaks and performs no further
pdfplumber call. -/
theorem brLoop_error_not_success (ps : List TPage) :
    ∀ (secs : List Sec) (st : BRResult) (e : BRResult × String),
      st.success = false → brLoop ps secs st = .error e →
      e.1.success = false := by
  intro secs
  induction secs with
  | nil =>
    intro st e hs h
    exact absurd h (by simp [brLoop])
  | cons s rest ih =>
    intro st e hs h
    rw [brLoop] at h
    cases hx : extractTableFromPages ps s.idx with
    | error m =>
      rw [hx] at h
      simp only [Except.error.injEq] at h
      rw [← h]
      exact hs
    | ok o =>
      rw [hx] at h
      cases o with
      | none =>
        dsimp only at h
        exact ih { st with status := s.status, source_page := some (s.idx + 1) } e hs h
      | some raw =>
        dsimp only at h
        by_cases hr : (parseTable raw).1.isEmpty
        · rw [if_pos hr] at h
          exact ih { st with status := s.status, source_page := some (s.idx + 1) } e hs h
        · rw [if_neg hr] at h
          exact absurd h (by simp)

/-- Same invariant for the rows of the state carried out of a raise. -/
theorem brLoop_error_state (ps : List TPage) :
    ∀ (secs : List Sec) (st : BRResult) (e : BRResult × String),
      brLoop ps secs st = .error e →
      e.1.rows = st.rows ∧ e.1.errors = st.errors ∧ e.1.success = st.success := by
  intro secs
  induction secs with
  | nil =>
    intro st e h
    exact absurd h (by simp [brLoop])
  | cons s rest ih =>
    intro st e h
    rw [brLoop] at h
    cases hx : extractTableFromPages ps s.idx with
    | error m =>
      rw [hx] at h
      simp only [Except.error.injEq] at h
      rw [← h]
      exact ⟨rfl, rfl, rfl⟩
    | ok o =>
      rw [hx] at h
      cases o with
      | none =>
        dsimp only at h
        exact ih { st with status := s.status, source_page := some (s.idx + 1) } e h
      | some raw =>
        dsimp only at h
        by_cases hr : (parseTable raw).1.isEmpty
        · rw [if_pos hr] at h
          exact ih { st with status := s.status, source_page := some (s.idx + 1) } e h
        · rw [if_neg hr] at h
          exact absurd h (by simp)

/-- The claim C2, amended: neither entry point lets an exception escape;
a caught exception is recorded with the source's message prefix.
`extract_building_rights` then always reports `success=False` with the
exception as its only error; `TenderPDFExtractor.extract` reports
`success=False` whenever no plot and no plan number had been recovered
before the failure (if data had already been extracted, `success` stays
`True` with the error recorded — the behaviour the original claim
missed). -/
theorem c2_amended_exceptions_recorded :
    (∀ maxPages H pdf m, tExtractRaise maxPages H pdf = some m →
      pdfFailMsg m ∈ (tExtract maxPages H pdf).errors
      ∧ ((tExtract maxPages H pdf).plots = [] →
          (tExtract maxPages H pdf).taba = none →
          (tExtract maxPages H pdf).success = false))
    ∧ (∀ pn stem pdf m, brRaise pn stem pdf = some m →
        (extractBR pn stem pdf).success = false
        ∧ (extractBR pn stem pdf).errors = [brFailMsg m]) := by
  constructor
  · intro maxPages H pdf m hr
    cases pdf with
    | missing => exact absurd hr (by simp [tExtractRaise])
    | openFail m0 =>
      have hm : m0 = m := by
        simpa [tExtractRaise] using hr
      constructor
      · show pdfFailMsg m ∈ (finalizeT
          { initT with errors := initT.errors ++ [pdfFailMsg m0] }).errors
        rw [hm]
        simp [finalizeT, initT]
      · intro _ _
        rfl
    | pages ps =>
      unfold tExtractRaise at hr
      dsimp only at hr
      unfold tExtract
      dsimp only
      cases hx : tenderInner maxPages H ps with
      | ok r => rw [hx] at hr; exact absurd hr (by simp)
      | error e =>
        rw [hx] at hr
        simp only [Option.some.injEq] at hr
        subst hr
        constructor
        · show pdfFailMsg e.2 ∈ (finalizeT
            { e.1 with errors := e.1.errors ++ [pdfFailMsg e.2] }).errors
          simp [finalizeT]
        · intro h1 h2
          show (finalizeT { e.1 with errors := e.1.errors ++ [pdfFailMsg e.2] }).success = false
          have h1' : e.1.plots = [] := h1
          have h2' : e.1.taba = none := h2
          simp [finalizeT, h1', h2']
  · intro pn stem pdf m hr
    cases pdf with
    | missing => exact absurd hr (by simp [brRaise])
    | openFail m0 =>
      have hm : m0 = m := by
        simpa [brRaise] using hr
      rw [← hm]
      exact ⟨rfl, rfl⟩
    | pages ps =>
      unfold brRaise at hr
      dsimp only at hr
      unfold extractBR
      dsimp only
      cases hf : findSection5 ps with
      | error m0 =>
        rw [hf] at hr
        simp only [Option.some.injEq] at hr
        subst hr
        exact ⟨rfl, rfl⟩
      | ok sections =>
        rw [hf] at hr
        dsimp only at hr ⊢
        by_cases hs : sections.isEmpty
        · rw [if_pos hs] at hr
          exact absurd hr (by simp)
        · rw [if_neg hs] at hr
          rw [if_neg hs]
          cases hl : brLoop ps sections (initBR pn stem) with
          | ok st => rw [hl] at hr; exact absurd hr (by simp)
          | error e =>
            rw [hl] at hr
            simp only [Option.some.injEq] at hr
            subst hr
            have hsucc := brLoop_error_not_success ps sections (initBR pn stem) e rfl hl
            exact ⟨hsucc, rfl⟩

/-- Witness for the amended C2 at raising inputs for both extractors. -/
theorem c2_amended_exceptions_recorded_witness :
    pdfFailMsg "x" ∈ (tExtract 15 noneHelpers (TPdf.openFail "x")).errors
    ∧ (extractBR none "p" (BPdf.openFail "y")).success = false := by
  constructor
  · exact (c2_amended_exceptions_recorded.1 15 noneHelpers
      (TPdf.openFail "x") "x" rfl).1
  · exact (c2_amended_exceptions_recorded.2 none "p"
      (BPdf.openFail "y") "y" rfl).1

theorem selectPlots_append (l : List RawTable) (t : RawTable) :
    selectPlots (l ++ [t]) = updBest (selectPlots l) (parsePlotTable t) := by
  unfold selectPlots
  rw [List.foldl_append]
  rfl

theorem maxScore_append (l : List RawTable) (t : RawTable) :
    maxScore (l ++ [t]) =
      if (parsePlotTable t).1.isEmpty then maxScore l
      else max (maxScore l) (parsePlotTable t).2 := by
  unfold maxScore
  rw [List.foldl_append]
  rfl

/-- Characterisation of the table-selection fold: the kept score is the
maximum score over tables with rows; a zero best score keeps nothing
(weak-match tables are dropped); every table with rows scores at most
the maximum; and when the maximum is positive, the kept entry is the
first table attaining it (ties keep the first found). -/
theorem selectPlots_spec (l : List RawTable) :
    (selectPlots l).2 = maxScore l
    ∧ ((selectPlots l).2 = 0 → (selectPlots l).1 = [])
    ∧ (∀ t ∈ l, (parsePlotTable t).1 ≠ [] → (parsePlotTable t).2 ≤ maxScore l)
    ∧ (0 < maxScore l →
        (l.map parsePlotTable).find?
            (fun pr => !pr.1.isEmpty && pr.2 == maxScore l)
          = some (selectPlots l)) := by
  induction l using List.reverseRecOn with
  | nil =>
    refine ⟨rfl, fun _ => rfl, by simp, fun h => absurd h (by decide)⟩
  | append_singleton l t ih =>
    obtain ⟨ih1, ih2, ih3, ih4⟩ := ih
    rw [selectPlots_append, maxScore_append]
    by_cases hemp : (parsePlotTable t).1.isEmpty
    · rw [if_pos hemp]
      have hupd : updBest (selectPlots l) (parsePlotTable t) = selectPlots l := by
        unfold updBest
        rw [if_neg (by simp [hemp])]
      rw [hupd]
      refine ⟨ih1, ih2, ?_, ?_⟩
      · intro t' ht' hne
        rcases List.mem_append.mp ht' with h | h
        · exact ih3 t' h hne
        · rw [List.mem_singleton.mp h] at hne
          exact absurd hemp (by simpa using hne)
      · intro hM
        rw [List.map_append, List.find?_append, ih4 hM]
        rfl
    · rw [if_neg hemp]
      by_cases hgt : (parsePlotTable t).2 > (selectPlots l).2
      · have hupd : updBest (selectPlots l) (parsePlotTable t) = parsePlotTable t := by
          unfold updBest
          rw [if_pos (by simp [hemp, hgt])]
        rw [hupd]
        have hmax : max (maxScore l) (parsePlotTable t).2 = (parsePlotTable t).2 := by
          rw [ih1] at hgt
          omega
        rw [hmax]
        refine ⟨rfl, ?_, ?_, ?_⟩
        · intro h0
          rw [ih1] at hgt
          omega
        · intro t' ht' hne
          rcases List.mem_append.mp ht' with h | h
          · have := ih3 t' h hne
            rw [ih1] at hgt
            omega
          · rw [List.mem_singleton.mp h]
        · intro _
          rw [List.map_append, List.find?_append]
          have hnone : (l.map parsePlotTable).find?
              (fun pr => !pr.1.isEmpty && pr.2 == (parsePlotTable t).2) = none := by
            rw [List.find?_eq_none]
            intro pr hpr
            rcases List.mem_map.mp hpr with ⟨t', ht', rfl⟩
            simp only [Bool.and_eq_true_iff, Bool.not_eq_true', beq_iff_eq, not_and]
            intro hne
            have := ih3 t' ht' (by simpa using hne)
            rw [ih1] at hgt
            omega
          rw [hnone]
          simp only [Option.none_or, List.map_cons, List.map_nil]
          rw [List.find?_cons_of_pos _ (by simp [hemp])]
      · have hupd : updBest (selectPlots l) (parsePlotTable t) = selectPlots l := by
          unfold updBest
          rw [if_neg (by
            simp only [Bool.and_eq_true_iff, not_and, Bool.not_eq_true']
            intro _
            simpa using hgt)]
        rw [hupd]
        have hle : (parsePlotTable t).2 ≤ maxScore l := by
          rw [ih1] at hgt
          omega
        have hmax : max (maxScore l) (parsePlotTable t).2 = maxScore l := by
          omega
        rw [hmax]
        refine ⟨ih1, ih2, ?_, ?_⟩
        · intro t' ht' hne
          rcases List.mem_append.mp ht' with h | h
          · exact ih3 t' h hne
          · rw [List.mem_singleton.mp h]
            exact hle
        · intro hM
          rw [List.map_append, List.find?_append, ih4 hM]
          rfl

theorem foldl_updBest_zero :
    ∀ (tbls : List RawTable),
      (∀ tbl ∈ tbls, (parsePlotTable tbl).2 = 0) →
      tbls.foldl (fun pb tbl => updBest pb (parsePlotTable tbl))
        (([] : List Plot), 0) = ([], 0) := by
  intro tbls
  induction tbls with
  | nil => intro _; rfl
  | cons t rest ih =>
    intro h
    rw [List.foldl_cons]
    have h0 : updBest (([] : List Plot), 0) (parsePlotTable t) = ([], 0) := by
      unfold updBest
      rw [if_neg (by simp [h t (List.mem_cons_self _ _)])]
    rw [h0]
    exact ih (fun x hx => h x (List.mem_cons_of_mem _ hx))

/-- The page loop keeps no table when every table on the scanned pages
parses with score 0, even across a raised exception. -/
theorem tenderLoop_all_weak (H : TextHelpers) (ps : List TPage) :
    ∀ (idxs : List Nat) (st : TScan), st.res.plots = [] → st.best = 0 →
      (∀ i ∈ idxs, ∀ tbl ∈ tablesOf (pageAtT ps i), (parsePlotTable tbl).2 = 0) →
      (∃ st', tenderLoop H ps idxs st = .ok st'
        ∧ st'.res.plots = [] ∧ st'.best = 0)
      ∨ (∃ e, tenderLoop H ps idxs st = .error e ∧ e.1.plots = []) := by
  intro idxs
  induction idxs with
  | nil =>
    intro st h1 h2 _
    exact Or.inl ⟨st, rfl, h1, h2⟩
  | cons i is ih =>
    intro st h1 h2 hweak
    rw [tenderLoop]
    cases ht : pageTextT (pageAtT ps i) with
    | error m => exact Or.inr ⟨(st.res, m), rfl, h1⟩
    | ok text =>
      cases htb : (pageAtT ps i).tables with
      | error m => exact Or.inr ⟨(st.res, m), rfl, h1⟩
      | ok tables =>
        dsimp only
        have htof : tablesOf (pageAtT ps i) = tables := by
          unfold tablesOf
          rw [htb]
        have hz : ∀ tbl ∈ tables, (parsePlotTable tbl).2 = 0 := by
          rw [← htof]
          exact hweak i (List.mem_cons_self _ _)
        have hfold : tables.foldl (fun pb tbl => updBest pb (parsePlotTable tbl))
            (st.res.plots, st.best) = ([], 0) := by
          rw [h1, h2]
          exact foldl_updBest_zero tables hz
        rw [hfold]
        exact ih _ rfl rfl (fun j hj => hweak j (List.mem_cons_of_mem _ hj))

/-- The claim C4, amended: a weak-match table (no strong field, but
`mitham` plus another field) is accepted by `_parse_plot_table` — its
rows are returned — but with score 0; the page-level selection keeps a
table only when its score strictly exceeds the running best, which
starts at 0, so among candidate tables the single highest-scoring one
with a positive score is kept (ties keeping the first found) and a PDF
whose candidate tables all parse with score 0 yields no table-derived
plots at all. -/
theorem c4_amended_best_table_selection :
    (∀ l : List RawTable,
      (selectPlots l).2 = maxScore l
      ∧ ((selectPlots l).2 = 0 → (selectPlots l).1 = [])
      ∧ (0 < maxScore l →
          (l.map parsePlotTable).find?
              (fun pr => !pr.1.isEmpty && pr.2 == maxScore l)
            = some (selectPlots l)))
    ∧ (∀ (maxPages : Nat) (H : TextHelpers) (ps : List TPage),
        (∀ s, H.gushOf s = none) →
        (∀ i, i < min ps.length maxPages →
          ∀ tbl ∈ tablesOf (pageAtT ps i), (parsePlotTable tbl).2 = 0) →
        (tExtract maxPages H (TPdf.pages ps)).plots = []) := by
  constructor
  · intro l
    obtain ⟨h1, h2, _, h4⟩ := selectPlots_spec l
    exact ⟨h1, h2, h4⟩
  · intro maxPages H ps hgush hweak
    unfold tExtract
    dsimp only
    simp only [tenderInner]
    cases hft : buildFirstText ps (min ps.length maxPages) with
    | error m => rfl
    | ok ft =>
      dsimp only
      cases hnd : NON_LAND_KEYWORDS.find? (fun kw => inStr kw ft) with
      | some kw => rfl
      | none =>
        dsimp only
        have hloop := tenderLoop_all_weak H ps (List.range (min ps.length maxPages))
          ⟨initT, 0, []⟩ rfl rfl
          (fun i hi => hweak i (List.mem_range.mp hi))
        rcases hloop with ⟨st', hok, hp, _⟩ | ⟨e, herr, hp⟩
        · rw [hok]
          dsimp only
          cases hta : st'.res.taba with
          | some tb => simp [hta, hgush, finalizeT, hp]
          | none => simp [hta, hgush, finalizeT, hp]
        · rw [herr]
          dsimp only
          show ({ e.1 with errors := e.1.errors ++ [pdfFailMsg e.2] } : TResult).plots = []
          exact hp

/-- Witness for the amended C4: the weak-table PDF yields no plots, and
the selection fold at a two-table list keeps the first of the tied
strong tables. -/
theorem c4_amended_best_table_selection_witness :
    (tExtract 15 noneHelpers pdfC4).plots = []
    ∧ (selectPlots [weakTable]).1 = [] := by
  constructor
  · exact c4_amended_best_table_selection.2 15 noneHelpers
      [⟨.ok (some ""), .ok [weakTable]⟩] (fun _ => rfl) (by decide)
  · exact (c4_amended_best_table_selection.1 [weakTable]).2.1 (by decide)

/-! ## Claim C5 (amended) and C10: the result discipline of
`extract_building_rights` -/

/-- Every row kept by the data-row fold has a non-null mapped value. -/
theorem parseDataRows_any (cmap : List (Nat × String)) :
    ∀ (rs : List (List (Option String))) (acc : List RRow),
      (∀ r ∈ acc, r.fields.any (fun q => q.2.isSome) = true) →
      ∀ r ∈ parseDataRows cmap rs acc,
        r.fields.any (fun q => q.2.isSome) = true := by
  intro rs
  induction rs with
  | nil => intro acc hacc; exact hacc
  | cons row rest ih =>
    intro acc hacc
    unfold parseDataRows
    rw [List.foldl_cons]
    by_cases hskip : row.isEmpty || rowBlank row
    · rw [if_pos hskip]
      exact ih acc hacc
    · rw [if_neg hskip]
      dsimp only
      by_cases hkeep : ((parseRow cmap row).1.any (·.2.isSome)) = true
      · rw [if_pos hkeep]
        refine ih _ ?_
        intro r hr
        rcases List.mem_append.mp hr with h | h
        · exact hacc r h
        · rw [List.mem_singleton.mp h]
          exact hkeep
      · rw [if_neg hkeep]
        exact ih acc hacc

/-- Every row returned by `_parse_table` has a non-null mapped value. -/
theorem parseTable_rows_any (raw : RawTable) :
    ∀ r ∈ (parseTable raw).1, r.fields.any (fun q => q.2.isSome) = true := by
  unfold parseTable
  by_cases h1 : (raw.takeWhile isHeaderRow).isEmpty
  · rw [if_pos h1]
    intro r hr
    exact absurd hr (by simp)
  · rw [if_neg h1]
    dsimp only
    by_cases h2 : (mapColumns (mergeHeaderRows (raw.takeWhile isHeaderRow))).isEmpty
    · rw [if_pos h2]
      intro r hr
      exact absurd hr (by simp)
    · rw [if_neg h2]
      exact parseDataRows_any _ _ [] (by simp)

/-- The state coming out of a completed `brLoop`: errors untouched, and
either nothing happened (`success=False`, no rows) or a table was parsed
(`success=True`, nonempty rows, every row with a non-null value). -/
theorem brLoop_ok_state (ps : List TPage) :
    ∀ (secs : List Sec) (st st' : BRResult),
      st.success = false → st.rows = [] → st.errors = [] →
      brLoop ps secs st = .ok st' →
      st'.errors = [] ∧
        ((st'.success = false ∧ st'.rows = [])
          ∨ (st'.success = true ∧ st'.rows ≠ []
              ∧ ∀ r ∈ st'.rows, r.fields.any (fun q => q.2.isSome) = true)) := by
  intro secs
  induction secs with
  | nil =>
    intro st st' h1 h2 h3 h
    have : st = st' := by simpa [brLoop] using h
    subst this
    exact ⟨h3, Or.inl ⟨h1, h2⟩⟩
  | cons s rest ih =>
    intro st st' h1 h2 h3 h
    rw [brLoop] at h
    cases hx : extractTableFromPages ps s.idx with
    | error m =>
      rw [hx] at h
      exact absurd h (by simp)
    | ok o =>
      rw [hx] at h
      cases o with
      | none =>
        dsimp only at h
        exact ih { st with status := s.status, source_page := some (s.idx + 1) }
          st' h1 h2 h3 h
      | some raw =>
        dsimp only at h
        by_cases hr : (parseTable raw).1.isEmpty
        · rw [if_pos hr] at h
          exact ih { st with status := s.status, source_page := some (s.idx + 1) }
            st' h1 h2 h3 h
        · rw [if_neg hr] at h
          simp only [Except.ok.injEq] at h
          subst h
          refine ⟨h3, Or.inr ⟨rfl, by simpa using hr, ?_⟩⟩
          intro r hrr
          exact parseTable_rows_any raw r hrr

/-- The claim C5, amended: a PDF in which no Section-5 keyword is found
within the page cap records the distinct error
`"Section 5 not found in PDF"`; the other two failure modes — a
Section-5 page with no table meeting the size threshold, and a table
with zero parsed data rows — share the single error string
`"Table found but no data rows parsed"` (always with `success=False`
and no escaping exception), so the errors list distinguishes only the
missing-section mode from the other two. -/
theorem c5_amended_failure_mode_errors :
    (∀ (pn : Option String) (stem : String) (ps : List TPage),
      findSection5 ps = .ok [] →
      extractBR pn stem (BPdf.pages ps)
        = { initBR pn stem with errors := [noSectionMsg] })
    ∧ (∀ (pn : Option String) (stem : String) (ps : List TPage)
        (secs : List Sec),
        findSection5 ps = .ok secs → secs ≠ [] →
        brRaise pn stem (BPdf.pages ps) = none →
        (extractBR pn stem (BPdf.pages ps)).success = false →
        (extractBR pn stem (BPdf.pages ps)).errors = [noRowsMsg]
        ∧ (extractBR pn stem (BPdf.pages ps)).rows = []) := by
  constructor
  · intro pn stem ps hf
    unfold extractBR
    dsimp only
    rw [hf]
    rfl
  · intro pn stem ps secs hf hne hraise hsucc
    unfold brRaise at hraise
    dsimp only at hraise
    rw [hf] at hraise
    dsimp only at hraise
    rw [if_neg (by simpa using hne)] at hraise
    unfold extractBR at hsucc ⊢
    dsimp only at hsucc ⊢
    rw [hf] at hsucc ⊢
    dsimp only at hsucc ⊢
    rw [if_neg (by simpa using hne)] at hsucc ⊢
    cases hl : brLoop ps secs (initBR pn stem) with
    | error e =>
      rw [hl] at hraise
      exact absurd hraise (by simp)
    | ok st =>
      rw [hl] at hsucc
      dsimp only at hsucc ⊢
      by_cases hs : st.success
      · rw [if_pos hs] at hsucc
        rw [hsucc] at hs
        exact absurd hs (by simp)
      · rw [if_neg hs] at hsucc ⊢
        refine ⟨rfl, ?_⟩
        show st.rows = []
        have hst := brLoop_ok_state ps secs (initBR pn stem) st rfl rfl rfl hl
        rcases hst.2 with ⟨_, hrows⟩ | ⟨htrue, _, _⟩
        · exact hrows
        · exact absurd htrue (by simpa using hs)

/-- Witness for the C5 amended theorem: an empty PDF hits the
missing-Section-5 branch, and the table-less section page of `pdfC5b`
hits the no-rows branch with the shared error string. -/
theorem c5_amended_failure_mode_errors_witness :
    (extractBR none "a" (BPdf.pages [])
        = { initBR none "a" with errors := [noSectionMsg] })
    ∧ ((extractBR none "b" pdfC5b).errors = [noRowsMsg]
        ∧ (extractBR none "b" pdfC5b).rows = []) := by
  refine ⟨c5_amended_failure_mode_errors.1 none "a" [] rfl, ?_⟩
  show (extractBR none "b"
      (BPdf.pages [⟨.ok (some "טבלת זכויות"), .ok []⟩])).errors = [noRowsMsg]
    ∧ (extractBR none "b"
      (BPdf.pages [⟨.ok (some "טבלת זכויות"), .ok []⟩])).rows = []
  exact c5_amended_failure_mode_errors.2 none "b"
    [⟨.ok (some "טבלת זכויות"), .ok []⟩] [⟨0, none⟩]
    rfl (by decide) rfl (by decide)

/-- Claim C10: for every input, `extract_building_rights` returns a
result in which `success` is `True` iff the `rows` list is non-empty,
the `errors` list is non-empty iff `success` is `False`, and whenever
`success` is `True` each entry of `rows` has at least one non-null
mapped field value. -/
theorem c10_br_invariants (pn : Option String) (stem : String) (pdf : BPdf) :
    ((extractBR pn stem pdf).success = true ↔ (extractBR pn stem pdf).rows ≠ [])
    ∧ ((extractBR pn stem pdf).errors ≠ [] ↔ (extractBR pn stem pdf).success = false)
    ∧ ((extractBR pn stem pdf).success = true →
        ∀ r ∈ (extractBR pn stem pdf).rows,
          r.fields.any (fun q => q.2.isSome) = true) := by
  cases pdf with
  | missing =>
    refine ⟨?_, ?_, ?_⟩ <;> simp [extractBR, initBR]
  | openFail m =>
    refine ⟨?_, ?_, ?_⟩ <;> simp [extractBR, initBR]
  | pages ps =>
    unfold extractBR
    dsimp only
    cases hf : findSection5 ps with
    | error m =>
      refine ⟨?_, ?_, ?_⟩ <;> simp [initBR]
    | ok sections =>
      dsimp only
      by_cases hs : sections.isEmpty
      · rw [if_pos hs]
        refine ⟨?_, ?_, ?_⟩ <;> simp [initBR]
      · rw [if_neg hs]
        cases hl : brLoop ps sections (initBR pn stem) with
        | error e =>
          dsimp only
          have hst := brLoop_error_state ps sections (initBR pn stem) e hl
          rcases hst with ⟨hrows, _, hsucc⟩
          refine ⟨?_, ?_, ?_⟩ <;>
            simp [hrows, hsucc, initBR]
        | ok st =>
          dsimp only
          have hst := brLoop_ok_state ps sections (initBR pn stem) st rfl rfl rfl hl
          rcases hst with ⟨herr, hcase⟩
          by_cases hsu : st.success = true
          · rw [if_pos hsu]
            rcases hcase with ⟨hfalse, _⟩ | ⟨_, hne, hall⟩
            · rw [hsu] at hfalse; exact absurd hfalse (by simp)
            · refine ⟨iff_of_true hsu hne, ?_, fun _ => hall⟩
              rw [herr, hsu]
              simp
          · rw [if_neg hsu]
            rcases hcase with ⟨hfalse, hrows⟩ | ⟨htrue, _⟩
            · refine ⟨?_, ?_, ?_⟩ <;> simp [hrows, hfalse]
            · exact absurd htrue hsu

/-- Witness for C10: on `brGood` the invariants place two parsed rows
behind `success=True`, each with a non-null mapped value. -/
theorem c10_br_invariants_witness :
    (extractBR none "w" brGood).rows ≠ []
    ∧ ∀ r ∈ (extractBR none "w" brGood).rows,
        r.fields.any (fun q => q.2.isSome) = true :=
  ⟨(c10_br_invariants none "w" brGood).1.mp (by decide),
   (c10_br_invariants none "w" brGood).2.2 (by decide)⟩

end TenderDash
